import Mathlib

/-!
# Verification of the caption resolution-and-rendering pipeline

A shallow embedding of the core of `yt-transcribe.py`: video-reference
resolution, filename sanitization, the transcript fetch/selection/translation
policy, caption-text normalization, timestamp formatting and the two
renderers, together with theorems settling the specification claims.

Strings are modelled as `List Char` in the worker functions (with `String`
fronts where convenient); machine floats carrying caption start times are
modelled as rationals; calls into external services are modelled as explicit
oracle values describing each call's outcome.
-/

set_option maxRecDepth 100000
set_option maxHeartbeats 1600000

namespace YtTranscribe

/-! ## Character classes and basic string operations -/

/-- The whitespace code points matched by Python's `str.strip()` and by `\s`
in text-mode `re` patterns. -/
def pyIsSpace (c : Char) : Bool :=
  let n := c.toNat
  decide (n = 0x20 ∨ (0x09 ≤ n ∧ n ≤ 0x0d) ∨ (0x1c ≤ n ∧ n ≤ 0x1f) ∨
    n = 0x85 ∨ n = 0xa0 ∨ n = 0x1680 ∨ (0x2000 ≤ n ∧ n ≤ 0x200a) ∨
    n = 0x2028 ∨ n = 0x2029 ∨ n = 0x202f ∨ n = 0x205f ∨ n = 0x3000)

/-- Python `str.strip()`: drop leading and trailing whitespace. -/
def pyStrip (l : List Char) : List Char :=
  ((l.dropWhile pyIsSpace).reverse.dropWhile pyIsSpace).reverse

/-- `str.rstrip()`: drop trailing whitespace only. -/
def pyRstrip (l : List Char) : List Char :=
  (l.reverse.dropWhile pyIsSpace).reverse

/-- Python `str.split(c)` on a one-character separator (keeps empty pieces). -/
def splitOnChar (c : Char) : List Char → List (List Char)
  | [] => [[]]
  | a :: rest =>
    if a = c then [] :: splitOnChar c rest
    else
      match splitOnChar c rest with
      | [] => [[a]]
      | g :: gs => (a :: g) :: gs

/-- Substring test, Python's `needle in hay` on strings. -/
def containsSub (needle : List Char) : List Char → Bool
  | [] => needle == []
  | a :: rest => List.isPrefixOf needle (a :: rest) || containsSub needle rest

/-- `str.startswith`. -/
def startsWithL (pre l : List Char) : Bool := List.isPrefixOf pre l

/-- `str.endswith`. -/
def endsWithL (suf l : List Char) : Bool := List.isSuffixOf suf l

/-- `str.lower()` (the inputs of interest are ASCII). -/
def lowerL (l : List Char) : List Char := l.map Char.toLower

/-- `str.upper()` (the inputs of interest are ASCII). -/
def upperL (l : List Char) : List Char := l.map Char.toUpper

/-! ## Video Reference Resolver (`normalize_url`, `extract_video_id`) -/

/-- One character of the 11-character video-ID pattern `[A-Za-z0-9_-]`,
written out by code point. -/
def isIdChar (c : Char) : Bool :=
  let n := c.toNat
  decide ((65 ≤ n ∧ n ≤ 90) ∨ (97 ≤ n ∧ n ≤ 122) ∨ (48 ≤ n ∧ n ≤ 57) ∨
    n = 95 ∨ n = 45)

/-- `VIDEO_ID_PATTERN.fullmatch`: exactly 11 characters, each in the class. -/
def isVideoId (l : List Char) : Bool := l.length == 11 && l.all isIdChar

/-- `normalize_url`: upgrade scheme-less inputs beginning with `www.` to
`https://`; every other input is returned unchanged. -/
def normalize_url (l : List Char) : List Char :=
  if startsWithL "www.".data l then "https://".data ++ l else l

/-- The components of `urllib.parse.urlparse` that the resolver reads. -/
structure ParsedUrl where
  scheme : List Char
  netloc : List Char
  path : List Char
  query : List Char
deriving Repr, DecidableEq

/-- Characters allowed in a URL scheme after the leading letter. -/
def isSchemeChar (c : Char) : Bool := c.isAlphanum || c == '+' || c == '-' || c == '.'

/-- `urllib.parse.urlparse` restricted to the fields the resolver uses:
split an optional scheme at the first `:` (when the part before it is a
well-formed scheme), an authority after `//` (ended by `/`, `?` or `#`),
then strip a `#` fragment and split the `?` query.  Percent-escapes are left
alone here, as in the Python function. -/
def urlparse (url : List Char) : ParsedUrl :=
  let before := url.takeWhile (fun a => a != ':')
  let rest :=
    if before.length < url.length ∧ before ≠ [] ∧
        (before.head?.elim false Char.isAlpha) ∧ before.all isSchemeChar then
      url.drop (before.length + 1)
    else url
  let scheme :=
    if before.length < url.length ∧ before ≠ [] ∧
        (before.head?.elim false Char.isAlpha) ∧ before.all isSchemeChar then
      lowerL before
    else []
  let netloc :=
    if startsWithL "//".data rest then
      (rest.drop 2).takeWhile (fun a => !(a == '/' || a == '?' || a == '#'))
    else []
  let rest2 :=
    if startsWithL "//".data rest then
      (rest.drop 2).dropWhile (fun a => !(a == '/' || a == '?' || a == '#'))
    else rest
  let beforeFrag := rest2.takeWhile (fun a => a != '#')
  let path := beforeFrag.takeWhile (fun a => a != '?')
  let query := (beforeFrag.dropWhile (fun a => a != '?')).drop 1
  ⟨scheme, netloc, path, query⟩

/-- `urllib.parse.unquote_plus` on the query values of interest: `+` decodes
to a space (the claims' inputs contain no percent-escapes). -/
def unquotePlus (l : List Char) : List Char :=
  l.map (fun c => if c = '+' then ' ' else c)

/-- `parse_qs(query).get("v", [None])[0]`: split the query on `&`, keep only
fields that contain `=` and have a non-blank value (`keep_blank_values` is
false), and return the first value bound to the key `v`. -/
def parseQsGetV (query : List Char) : Option (List Char) :=
  let fields := splitOnChar '&' query
  let pairs := fields.filterMap (fun f =>
    let name := f.takeWhile (fun a => a != '=')
    let value := (f.dropWhile (fun a => a != '=')).drop 1
    if name.length < f.length then some (unquotePlus name, unquotePlus value)
    else none)
  let keep := pairs.filter (fun p => decide (p.2 ≠ []))
  ((keep.filter (fun p => p.1 == "v".data)).head?).map (·.2)

/-- The user-visible failure taxonomy of the script (`CliError` call sites). -/
inductive CliErr where
  | emptyInput
  | invalidReference (input : List Char)
  | invalidExtracted (got : List Char)
  | videoUnavailable
  | captionsDisabled
  | listFailed
  | noMetadata
  | noCaptions
  | fetchFailed
deriving Repr, DecidableEq

/-- The canonical watch URL built for an extracted ID. -/
def canonicalUrl (id : List Char) : List Char :=
  "https://www.youtube.com/watch?v=".data ++ id

/-- `[segment for segment in parsed.path.split("/") if segment]`. -/
def pathSegments (path : List Char) : List (List Char) :=
  (splitOnChar '/' path).filter (fun s => decide (s ≠ []))

/-- `extract_video_id`: strip the input, accept a bare 11-character ID
directly, otherwise upgrade `www.`-prefixed inputs and parse as a URL,
extracting the ID by host/path shape exactly as the source does. -/
def extract_video_id (url_or_id : List Char) : Except CliErr (List Char × List Char) :=
  let candidate := pyStrip url_or_id
  if candidate = [] then .error .emptyInput
  else if isVideoId candidate then .ok (candidate, canonicalUrl candidate)
  else
    let parsed := urlparse (normalize_url candidate)
    let host := lowerL parsed.netloc
    let segs := pathSegments parsed.path
    let vid : Option (List Char) :=
      if endsWithL "youtu.be".data host then segs.head?
      else if containsSub "youtube.com".data host then
        if startsWithL "/watch".data parsed.path then parseQsGetV parsed.query
        else
          match segs with
          | first :: second :: _ =>
            if first = "shorts".data ∨ first = "embed".data ∨ first = "live".data then
              some second
            else none
          | _ => none
      else none
    match vid with
    | none => .error (.invalidReference url_or_id)
    | some v =>
      if isVideoId v then .ok (v, canonicalUrl v) else .error (.invalidExtracted v)

/-! ## Filename Sanitizer (`sanitize_filename`) -/

/-- Unicode general category `Cc` (control characters; a fixed Unicode
range). -/
def isCatCc (c : Char) : Bool :=
  let n := c.toNat
  decide (n < 0x20 ∨ n = 0x7f ∨ (0x80 ≤ n ∧ n ≤ 0x9f))

/-- Unicode general category `Cf` (format characters): the principal ranges.
The full table is external Unicode data; every `Cf` code point is
non-ASCII, which is the only fact later stages rely on. -/
def isCatCf (c : Char) : Bool :=
  let n := c.toNat
  decide (n = 0xad ∨ (0x600 ≤ n ∧ n ≤ 0x605) ∨ n = 0x61c ∨ n = 0x6dd ∨
    n = 0x70f ∨ (0x200b ≤ n ∧ n ≤ 0x200f) ∨ (0x202a ≤ n ∧ n ≤ 0x202e) ∨
    (0x2060 ≤ n ∧ n ≤ 0x2064) ∨ (0x2066 ≤ n ∧ n ≤ 0x206f) ∨ n = 0xfeff ∨
    (0xfff9 ≤ n ∧ n ≤ 0xfffb) ∨ (0x1d173 ≤ n ∧ n ≤ 0x1d17a) ∨
    n = 0xe0001 ∨ (0xe0020 ≤ n ∧ n ≤ 0xe007f))

/-- Unicode categories `Cs` and `Co` (surrogates and private use: fixed
ranges per the standard). -/
def isCatCsCo (c : Char) : Bool :=
  let n := c.toNat
  decide ((0xd800 ≤ n ∧ n ≤ 0xdfff) ∨ (0xe000 ≤ n ∧ n ≤ 0xf8ff) ∨
    (0xf0000 ≤ n ∧ n ≤ 0xffffd) ∨ (0x100000 ≤ n ∧ n ≤ 0x10fffd))

/-- Unicode category `So` (other symbols): the principal ranges relevant to
video titles (copyright/degree signs, misc symbols, dingbats, pictographs,
emoji).  The full table is external Unicode data; every `So` code point is
non-ASCII. -/
def isCatSo (c : Char) : Bool :=
  let n := c.toNat
  decide (n = 0xa9 ∨ n = 0xae ∨ n = 0xb0 ∨ n = 0x2122 ∨
    (0x2600 ≤ n ∧ n ≤ 0x27bf) ∨ (0x1f000 ≤ n ∧ n ≤ 0x1faff))

/-- `unicodedata.normalize("NFC", ·)`.  Composition tables are external
Unicode data; a title already in composed form is unchanged, and everything
from the transliteration step onward is ASCII, where NFC is the identity.
Modelled as the identity. -/
def pyNFC (l : List Char) : List Char := l

/-- The fixed filesystem-illegal set `\ / : * ? " < > |`. -/
def illegalFsChars : List Char := "\\/:*?\"<>|".data

/-- The per-character filter of `sanitize_filename`'s first loop: drop
control/format characters, surrogates/private use, other-symbol glyphs and
the filesystem-illegal set. -/
def keepChar (c : Char) : Bool :=
  !(isCatCc c) && !(isCatCf c) && !(isCatCsCo c) && !(isCatSo c) &&
  !(illegalFsChars.contains c)

/-- Worker for `collapseWs`; the flag records whether the previous input
character was whitespace (whose run has already emitted its single space). -/
def collapseWsGo : Bool → List Char → List Char
  | _, [] => []
  | prevWs, c :: rest =>
    if pyIsSpace c then
      if prevWs then collapseWsGo true rest else ' ' :: collapseWsGo true rest
    else c :: collapseWsGo false rest

/-- `re.sub(r"\s+", " ", ·)`: collapse each whitespace run to one space. -/
def collapseWs (l : List Char) : List Char := collapseWsGo false l

/-- The punctuation class `[,.!?;:]`. -/
def isPunctMark (c : Char) : Bool :=
  c == ',' || c == '.' || c == '!' || c == '?' || c == ';' || c == ':'

/-- `re.sub(r"\s+([,.!?;:])", r"\1", ·)`: delete any whitespace run that
immediately precedes one of the six punctuation marks. -/
def punctFix : List Char → List Char
  | [] => []
  | c :: rest =>
    let t := punctFix rest
    if pyIsSpace c then
      match t with
      | d :: ds => if isPunctMark d then d :: ds else c :: d :: ds
      | [] => [c]
    else c :: t

/-- Membership in the `.strip(" .")` character set. -/
def isSpaceDot (c : Char) : Bool := c == ' ' || c == '.'

/-- `str.strip(" .")`. -/
def stripDots (l : List Char) : List Char :=
  ((l.dropWhile isSpaceDot).reverse.dropWhile isSpaceDot).reverse

/-- `str.encode("ascii", "ignore").decode("ascii")`: drop non-ASCII. -/
def asciiOnly (l : List Char) : List Char :=
  l.filter (fun c => decide (c.toNat < 128))

/-- The reserved device names guarded against at the end of the sanitizer. -/
def windowsReserved : List (List Char) :=
  ["CON".data, "PRN".data, "AUX".data, "NUL".data,
   "COM1".data, "COM2".data, "COM3".data, "COM4".data, "COM5".data,
   "COM6".data, "COM7".data, "COM8".data, "COM9".data,
   "LPT1".data, "LPT2".data, "LPT3".data, "LPT4".data, "LPT5".data,
   "LPT6".data, "LPT7".data, "LPT8".data, "LPT9".data]

/-- Modelled from the spec: step 4's "best-effort ASCII approximation" of
remaining non-ASCII characters, performed by the optional external
transliteration library (`unidecode`, absent from `src/`).  ASCII is
unchanged; the fullwidth ASCII variants `U+FF01`–`U+FF5E` map to their
ASCII counterparts (so `？` becomes `?` and `／` becomes `/`, as the
library does); code points outside the modelled table approximate to
nothing. -/
def pyUnidecode : List Char → List Char
  | [] => []
  | c :: rest =>
    if c.toNat < 128 then c :: pyUnidecode rest
    else if 0xff01 ≤ c.toNat ∧ c.toNat ≤ 0xff5e then
      Char.ofNat (c.toNat - 0xfee0) :: pyUnidecode rest
    else pyUnidecode rest

/-- `sanitize_filename`, parameterized by the outcome of the
`try: from unidecode import unidecode` at its step 4: `translit` is the
transliteration applied before the unconditional
`encode("ascii", "ignore")` re-encode of line 213.  The `ImportError`
branch is `translit := asciiOnly` (lines 210 then 213); the
library-present branch is `translit := pyUnidecode` (lines 212 then
213). -/
def sanitize_filename_with (translit : List Char → List Char)
    (base : List Char) : List Char :=
  if base = [] then []
  else
    let text := pyNFC base
    let filtered := text.filter keepChar
    let s1 := stripDots (punctFix (collapseWs filtered))
    let s2 := asciiOnly (translit s1)
    let s3 := stripDots (collapseWs s2)
    let s4 := if 200 < s3.length then pyRstrip (s3.take 200) else s3
    if (upperL s4) ∈ windowsReserved then s4 ++ ['_'] else s4

/-- `sanitize_filename` in the environment without the optional
transliteration library (the `ImportError` branch). -/
def sanitize_filename : List Char → List Char :=
  sanitize_filename_with asciiOnly

/-- `sanitize_filename` in the environment with the transliteration
library installed. -/
def sanitize_filename_uni : List Char → List Char :=
  sanitize_filename_with pyUnidecode

/-- String-level front of the sanitizer (library-absent environment). -/
def sanitizeFilename (s : String) : String := String.mk (sanitize_filename s.data)

/-- The sanitizer pipeline through step 4 (before truncation), named for
the proofs. -/
def sanCore (translit : List Char → List Char) (base : List Char) : List Char :=
  stripDots (collapseWs (asciiOnly (translit (stripDots (punctFix
    (collapseWs ((pyNFC base).filter keepChar)))))))

/-- The sanitizer pipeline through step 5 (after truncation). -/
def sanTrunc (translit : List Char → List Char) (base : List Char) : List Char :=
  if 200 < (sanCore translit base).length then
    pyRstrip ((sanCore translit base).take 200)
  else sanCore translit base

example : sanitizeFilename "  My: Video * Title?!  " = "My Video Title!" := by rfl

example : sanitizeFilename "con" = "con_" := by rfl

example :
    (sanitize_filename (List.replicate 199 'a' ++ ".bb".data)).length = 200 := by decide

example :
    (sanitize_filename (sanitize_filename (List.replicate 199 'a' ++ ".bb".data))).length
      = 199 := by decide

example : sanitize_filename_uni "？ Video ／ Demo".data = "? Video / Demo".data := by
  decide

/-- String-level front of `extract_video_id`. -/
def extractVideoId (s : String) : Except CliErr (String × String) :=
  (extract_video_id s.data).map (fun p => (String.mk p.1, String.mk p.2))

/-! ## Caption Normalizer (`clean_caption_text`, `normalize_entries`) -/

/-- The fixed stage-direction vocabulary (lower case). -/
def stageDirectionWords : List (List Char) :=
  ["music".data, "applause".data, "laughter".data, "silence".data,
   "inaudible".data]

/-- The bracketed token for a vocabulary word. -/
def bracketed (w : List Char) : List Char := '[' :: (w ++ [']'])

/-- If `STAGE_DIRECTION_PATTERN` matches at the head of `l`, the length of
the matched token.  At most one alternative can match at a given position
because the alternatives are complete bracketed tokens. -/
def markerAt (l : List Char) : Option Nat :=
  ((stageDirectionWords.filter
      (fun w => startsWithL (bracketed w) (lowerL l))).head?).map
    (fun w => w.length + 2)

/-- Worker for `removeStageDirs`, structurally recursive on a fuel that
starts at the input length (a matched token always consumes at least one
character, so the fuel never runs out first). -/
def removeStageDirsAux : Nat → List Char → List Char
  | _, [] => []
  | 0, l => l
  | fuel + 1, c :: rest =>
    match markerAt (c :: rest) with
    | some n => removeStageDirsAux fuel (rest.drop (n - 1))
    | none => c :: removeStageDirsAux fuel rest

/-- `STAGE_DIRECTION_PATTERN.sub("", ·)`: left-to-right removal of every
case-insensitive bracketed stage-direction token. -/
def removeStageDirs (l : List Char) : List Char :=
  removeStageDirsAux l.length l

/-- `STAGE_DIRECTION_PATTERN.fullmatch`: the whole string is exactly one
bracketed stage-direction token, case-insensitively. -/
def isStageDirectionFull (l : List Char) : Bool :=
  stageDirectionWords.any (fun w => lowerL l == bracketed w)

/-- `clean_caption_text` (an absent raw text is represented by the empty
string at the call boundary, which the `None` branch also produces). -/
def clean_caption_text (text : List Char) (keep_tags : Bool) : List Char :=
  let cleaned := pyNFC text
  let cleaned := if keep_tags then cleaned else removeStageDirs cleaned
  let cleaned := cleaned.map (fun c => if c = '\n' then ' ' else c)
  pyStrip (punctFix (collapseWs cleaned))

/-- One raw entry as delivered by the external capability: each field may be
missing (`item.get` / `getattr` default case). -/
structure RawEntry where
  text : Option String
  start : Option ℚ
  duration : Option ℚ
deriving Repr, DecidableEq

/-- A normalized caption entry. -/
structure CaptionEntry where
  text : String
  start : ℚ
  duration : ℚ
deriving Repr, DecidableEq

/-- `normalize_entries`: the mapping-shaped and attribute-shaped branches
perform the same defaulting, modelled once. -/
def normalize_entries (raw : List RawEntry) : List CaptionEntry :=
  raw.map (fun e => ⟨e.text.getD "", e.start.getD 0, e.duration.getD 0⟩)

/-! ## The transcript selection record -/

/-- `TranscriptSelection` (`kind` is `manual`, `generated` or
`translated`). -/
structure TranscriptSelection where
  kind : String
  source_kind : Option String
  language : String
  translated_to : Option String
  entries : List CaptionEntry
deriving Repr, DecidableEq

/-! ## Transcript Resolver (`fetch_transcript`) -/

/-- `expand_language_list`: split on commas, strip, drop empties. -/
def expand_language_list (lang_option : String) : List String :=
  if lang_option = "" then []
  else ((splitOnChar ',' lang_option.data).map
      (fun c => String.mk (pyStrip c))).filter (fun c => decide (c ≠ ""))

/-- Worker for `dedupKeepFirst` carrying the set of strings already seen. -/
def dedupGo (seen : List String) : List String → List String
  | [] => []
  | a :: rest =>
    if a ∈ seen then dedupGo seen rest else a :: dedupGo (seen ++ [a]) rest

/-- `list(dict.fromkeys(·))`: order-preserving deduplication. -/
def dedupKeepFirst (l : List String) : List String := dedupGo [] l

/-- The effective language-preference list of `fetch_transcript`. -/
def languagePreferences (languages : List String) : List String :=
  if languages ≠ [] then dedupKeepFirst languages
  else expand_language_list "en,en-US,en-GB"

/-- The outcome of one call to the external capability's `list` operation,
classified by the exception classes the source distinguishes
(`VideoUnavailable`, `TranscriptsDisabled`, any other
`YouTubeTranscriptApiException`). -/
inductive ListResult (α : Type) where
  | ok (transcripts : α)
  | videoUnavailable
  | transcriptsDisabled
  | apiError

/-- The backoff delay slept before retry number `attempt + 1`, in tenths of
a second: `min(5.0, 1.5 * (attempt + 1))`. -/
def retryDelayTenths (attempt : Nat) : Nat := min 50 (15 * (attempt + 1))

/-- The list-retrieval loop of `fetch_transcript`.  The first argument of
the recursion is the number of iterations `range(retries + 1)` still has to
run, so `attempt = retries` exactly when it is `1`; the `0` case is the
`transcripts is None` check after the loop.  Returns the outcome together
with the sequence of slept backoff delays. -/
def listLoop (oracle : Nat → ListResult α) (retries : Nat) :
    Nat → Nat → List Nat → (Except CliErr α) × List Nat
  | 0, _, delays => (.error .noMetadata, delays)
  | remaining + 1, attempt, delays =>
    match oracle attempt with
    | .ok t => (.ok t, delays)
    | .videoUnavailable => (.error .videoUnavailable, delays)
    | .transcriptsDisabled => (.error .captionsDisabled, delays)
    | .apiError =>
      if attempt = retries then (.error .listFailed, delays)
      else listLoop oracle retries remaining (attempt + 1)
        (delays ++ [retryDelayTenths attempt])

/-- List retrieval with retry: run the loop over `range(retries + 1)`. -/
def fetchTranscriptList (oracle : Nat → ListResult α) (retries : Nat) :
    (Except CliErr α) × List Nat :=
  listLoop oracle retries (retries + 1) 0 []

/-- The failure classes of the capability's per-track calls that the
translation stage distinguishes (`except` clauses of the source; the
external library raises only subclasses of `YouTubeTranscriptApiException`,
whose root is the `apiException` constructor). -/
inductive ApiFailure where
  | noTranscriptFound
  | notTranslatable
  | translationLanguageNotAvailable
  | apiException
deriving Repr, DecidableEq

/-- A translated track as returned by a track's `translate` operation. -/
structure TranslatedTrack where
  language_code : String
  fetchResult : Except ApiFailure (List RawEntry)

/-- One available caption track of the external capability, carrying the
outcomes of its `fetch()` and `translate(lang)` operations. -/
structure Track where
  language_code : String
  fetchResult : Except ApiFailure (List RawEntry)
  translate : String → Except ApiFailure TranslatedTrack

/-- The listed tracks, split into the two categories the two find
operations search. -/
structure Transcripts where
  generated : List Track
  manual : List Track

/-- Modelled from the spec: the external capability's find operation,
"keyed by an ordered language-preference list" (§6) — for each preferred
language in order, the first track of the category carrying it; a not-found
signal when no preferred language is available.  The operation itself lives
in the external captions library, not in this repository. -/
def findTranscript (langs : List String) (tracks : List Track) : Option Track :=
  match langs with
  | [] => none
  | l :: ls =>
    match tracks.find? (fun t => t.language_code == l) with
    | some t => some t
    | none => findTranscript ls tracks

/-- Track selection: search `generated` then `manual`, reversing the order
when the preference flag does not favor generated captions; the first
category whose finder succeeds wins, and the no-captions error is raised
when neither does. -/
def selectTrack (prefer_generated : Bool) (tr : Transcripts)
    (langs : List String) : Except CliErr (String × Track) :=
  let base := [("generated", tr.generated), ("manual", tr.manual)]
  let search_order := if prefer_generated then base else base.reverse
  match search_order.findSome?
      (fun kt => (findTranscript langs kt.2).map (fun t => (kt.1, t))) with
  | some result => .ok result
  | none => .error .noCaptions

/-- `translate_to.strip() if translate_to else None` (an absent CLI flag is
`none`; the empty string is falsy in the guard). -/
def translationTarget (translate_to : Option String) : Option String :=
  match translate_to with
  | none => none
  | some s => if s = "" then none else some (String.mk (pyStrip s.data))

/-- `fetch_transcript` from list retrieval onward: retrying list retrieval,
track selection, base fetch (fatal on failure), then the optional
translation attempt whose failure of either step falls back silently to the
base entries. -/
def fetch_transcript (oracle : Nat → ListResult Transcripts)
    (prefer_generated : Bool) (languages : List String)
    (translate_to : Option String := none) (retries : Nat := 2) :
    Except CliErr TranscriptSelection :=
  let language_preferences := languagePreferences languages
  match (fetchTranscriptList oracle retries).1 with
  | .error e => .error e
  | .ok transcripts =>
    match selectTrack prefer_generated transcripts language_preferences with
    | .error e => .error e
    | .ok (chosen_kind, chosen) =>
      let translation_target := translationTarget translate_to
      match chosen.fetchResult with
      | .error _ => .error .fetchFailed
      | .ok base_entries =>
        match translation_target with
        | some t =>
          if t ≠ "" then
            match chosen.translate t with
            | .ok translated =>
              match translated.fetchResult with
              | .ok translated_entries =>
                .ok ⟨"translated", some chosen_kind, translated.language_code,
                     some t, normalize_entries translated_entries⟩
              | .error _ =>
                .ok ⟨chosen_kind, some chosen_kind, chosen.language_code, none,
                     normalize_entries base_entries⟩
            | .error _ =>
              .ok ⟨chosen_kind, some chosen_kind, chosen.language_code, none,
                   normalize_entries base_entries⟩
          else
            .ok ⟨chosen_kind, some chosen_kind, chosen.language_code, none,
                 normalize_entries base_entries⟩
        | none =>
          .ok ⟨chosen_kind, some chosen_kind, chosen.language_code, none,
               normalize_entries base_entries⟩

/-! ## Timestamp formatting (`format_timestamp`) -/

/-- Python `int(·)` on a non-negative rational: truncation. -/
def ratToNat (q : ℚ) : Nat := (q.num / (q.den : Int)).toNat

/-- `f"{n:02d}"` for a natural number. -/
def pad2 (n : Nat) : String := if n < 10 then "0" ++ toString n else toString n

/-- `format_timestamp`: clamp negatives to zero, truncate to whole seconds,
and render `MM:SS`, or `HH:MM:SS` once the hour component is non-zero. -/
def format_timestamp (seconds : ℚ) : String :=
  let s := if seconds < 0 then 0 else seconds
  let total := ratToNat s
  let hours := total / 3600
  let remainder := total % 3600
  let minutes := remainder / 60
  let secs := remainder % 60
  if hours ≠ 0 then pad2 hours ++ ":" ++ pad2 minutes ++ ":" ++ pad2 secs
  else pad2 minutes ++ ":" ++ pad2 secs

example : format_timestamp 0 = "00:00" := by rfl
example : format_timestamp 65 = "01:05" := by rfl
example : format_timestamp 3661 = "01:01:01" := by rfl
example : format_timestamp (-3) = "00:00" := by rfl

/-! ## Renderer: plain text (`write_txt`) -/

/-- The header lines of the text format: optional title line, source line,
one blank. -/
def txtHeader (title canonical_url : String) : List String :=
  (if title ≠ "" then ["Title: " ++ title] else []) ++
    ["Source: " ++ canonical_url, ""]

/-- The per-entry body step of `write_txt`'s loop, acting on the
accumulated `lines` list. -/
def txtStep (include_timestamps keep_tags : Bool) (lines : List String)
    (entry : CaptionEntry) : List String :=
  let raw_text := entry.text
  let is_stage_direction :=
    keep_tags && raw_text != "" && isStageDirectionFull (pyStrip raw_text.data)
  let text := String.mk (clean_caption_text raw_text.data keep_tags)
  if !keep_tags && raw_text != "" && isStageDirectionFull (pyStrip raw_text.data) then
    if lines ≠ [] ∧ lines.getLast? ≠ some "" then lines ++ [""] else lines
  else if text = "" then lines
  else
    let lines :=
      if is_stage_direction ∧ lines ≠ [] ∧ lines.getLast? ≠ some "" then
        lines ++ [""]
      else lines
    if include_timestamps then
      lines ++ [format_timestamp entry.start ++ " - " ++ text]
    else lines ++ [text]

/-- The full line list `write_txt` builds before serializing. -/
def writeTxtLines (transcript : TranscriptSelection) (canonical_url title : String)
    (include_timestamps keep_tags : Bool) : List String :=
  transcript.entries.foldl (txtStep include_timestamps keep_tags)
    (txtHeader title canonical_url)

/-- `"\n".join(lines).rstrip() + "\n"`: the text file's final content. -/
def writeTxtContent (transcript : TranscriptSelection) (canonical_url title : String)
    (include_timestamps keep_tags : Bool) : String :=
  String.mk (pyRstrip (String.intercalate "\n"
    (writeTxtLines transcript canonical_url title include_timestamps keep_tags)).data)
    ++ "\n"

/-! ## Renderer: document (`write_docx`) -/

/-- One run of a document paragraph: its text and bold flag. -/
structure DocxRun where
  text : String
  bold : Bool
deriving Repr, DecidableEq

/-- The structural write operations `write_docx` issues to the document
capability, in order.  A blank paragraph is `para []`. -/
inductive DocxBlock where
  | heading (text : String) (link : Option String)
  | para (runs : List DocxRun)
deriving Repr, DecidableEq

/-- The header blocks of the document format: linked heading (plain-run
heading when the URL is empty), bold-labelled source paragraph, one blank
paragraph. -/
def docxHeader (title canonical_url : String) : List DocxBlock :=
  [.heading (if title ≠ "" then title else "YouTube Transcript")
      (if canonical_url ≠ "" then some canonical_url else none),
   .para [⟨"Source: ", true⟩, ⟨canonical_url, false⟩],
   .para []]

/-- The per-entry body step of `write_docx`'s loop, acting on the emitted
blocks and the `previous_blank` flag. -/
def docxStep (include_timestamps keep_tags : Bool)
    (st : List DocxBlock × Bool) (entry : CaptionEntry) : List DocxBlock × Bool :=
  let blocks := st.1
  let previous_blank := st.2
  let raw_text := entry.text
  let is_stage_direction :=
    keep_tags && raw_text != "" && isStageDirectionFull (pyStrip raw_text.data)
  let text := String.mk (clean_caption_text raw_text.data keep_tags)
  if !keep_tags && raw_text != "" && isStageDirectionFull (pyStrip raw_text.data) then
    if !previous_blank then (blocks ++ [.para []], true) else (blocks, previous_blank)
  else if text = "" then (blocks, previous_blank)
  else
    let blocks :=
      if is_stage_direction && !previous_blank then blocks ++ [.para []] else blocks
    let runs : List DocxRun :=
      if include_timestamps then
        [⟨format_timestamp entry.start ++ " - ", true⟩, ⟨text, false⟩]
      else [⟨text, false⟩]
    (blocks ++ [.para runs], false)

/-- The full block list `write_docx` hands to the document capability. -/
def writeDocxBlocks (transcript : TranscriptSelection) (canonical_url title : String)
    (include_timestamps keep_tags : Bool) : List DocxBlock :=
  (transcript.entries.foldl (docxStep include_timestamps keep_tags)
    (docxHeader title canonical_url, true)).1

/-! ## Structural projection shared by the two renderers -/

/-- A structural line: blank separator or content, with the cosmetic
encodings (timestamp bolding, hyperlink vs plain URL, title prefix)
projected away. -/
inductive SLine where
  | blank
  | content (text : String)
deriving Repr, DecidableEq

/-- Structure of the text renderer's line list. -/
def txtStruct (lines : List String) : List SLine :=
  lines.map (fun s => if s = "" then .blank else .content s)

/-- The concatenated text of a paragraph's runs. -/
def runsText : List DocxRun → String
  | [] => ""
  | r :: rs => r.text ++ runsText rs

/-- The plain text carried by one document block, canonicalized to the text
format's encoding of the same line. -/
def blockPlainText : DocxBlock → String
  | .heading t _ => "Title: " ++ t
  | .para runs => runsText runs

/-- Structure of the document renderer's block list. -/
def docxStruct (blocks : List DocxBlock) : List SLine :=
  blocks.map (fun b =>
    match b with
    | .para [] => .blank
    | b => .content (blockPlainText b))

example :
    writeTxtLines ⟨"manual", some "manual", "en", none,
        [⟨"Hello, world.", 0, 2⟩, ⟨"[Music]", 2, 1⟩, ⟨"Bye", 5, 1⟩]⟩
      "https://www.youtube.com/watch?v=dQw4w9WgXcQ" "Demo" true false =
    ["Title: Demo", "Source: https://www.youtube.com/watch?v=dQw4w9WgXcQ", "",
     "00:00 - Hello, world.", "", "00:05 - Bye"] := by rfl

example :
    txtStruct (writeTxtLines ⟨"manual", some "manual", "en", none,
        [⟨"Hello, world.", 0, 2⟩, ⟨"[Music]", 2, 1⟩, ⟨"Bye", 5, 1⟩]⟩ "u" "Demo" true false) =
    docxStruct (writeDocxBlocks ⟨"manual", some "manual", "en", none,
        [⟨"Hello, world.", 0, 2⟩, ⟨"[Music]", 2, 1⟩, ⟨"Bye", 5, 1⟩]⟩ "u" "Demo" true false) := by
  rfl

example : extractVideoId "dQw4w9WgXcQ" =
    .ok ("dQw4w9WgXcQ", "https://www.youtube.com/watch?v=dQw4w9WgXcQ") := by rfl

example : extractVideoId "https://www.youtube.com/watch?v=dQw4w9WgXcQ" =
    .ok ("dQw4w9WgXcQ", "https://www.youtube.com/watch?v=dQw4w9WgXcQ") := by rfl

example : extractVideoId "https://youtu.be/dQw4w9WgXcQ" =
    .ok ("dQw4w9WgXcQ", "https://www.youtube.com/watch?v=dQw4w9WgXcQ") := by rfl

example : extractVideoId "youtu.be/dQw4w9WgXcQ" =
    .error (.invalidReference "youtu.be/dQw4w9WgXcQ".data) := by rfl

example : extractVideoId "www.youtube.com/watch?v=dQw4w9WgXcQ" =
    .ok ("dQw4w9WgXcQ", "https://www.youtube.com/watch?v=dQw4w9WgXcQ") := by rfl

/-! ## Pipeline helper lemmas -/

theorem idChar_not_space {c : Char} (h : isIdChar c = true) :
    pyIsSpace c = false := by
  simp only [isIdChar, decide_eq_true_eq] at h
  simp only [pyIsSpace, decide_eq_false_iff_not]
  omega

theorem idChar_ne {c d : Char} (h : isIdChar c = true)
    (hd : isIdChar d = false) : c ≠ d := by
  intro hcd
  subst hcd
  rw [h] at hd
  cases hd

theorem pyStrip_eq_self {l : List Char} (h : ∀ c ∈ l, pyIsSpace c = false) :
    pyStrip l = l := by
  unfold pyStrip
  have h1 : l.dropWhile pyIsSpace = l := by
    cases l with
    | nil => rfl
    | cons a t => simp [List.dropWhile, h a (by simp)]
  rw [h1]
  have h2 : l.reverse.dropWhile pyIsSpace = l.reverse := by
    cases hr : l.reverse with
    | nil => rfl
    | cons b t =>
      have hb : b ∈ l := by
        rw [← List.mem_reverse, hr]
        simp
      simp [List.dropWhile, h b hb]
  rw [h2, List.reverse_reverse]

theorem splitOnChar_no_sep {c : Char} {l : List Char} (h : ∀ a ∈ l, a ≠ c) :
    splitOnChar c l = [l] := by
  induction l with
  | nil => rfl
  | cons a t ih =>
    have ha : a ≠ c := h a (by simp)
    simp only [splitOnChar, if_neg ha, ih (fun x hx => h x (by simp [hx]))]

theorem unquotePlus_id {l : List Char} (h : ∀ a ∈ l, a ≠ '+') :
    unquotePlus l = l := by
  unfold unquotePlus
  induction l with
  | nil => rfl
  | cons a t ih =>
    simp only [List.map_cons, if_neg (h a (by simp)),
      ih (fun x hx => h x (by simp [hx]))]

theorem isVideoId_spec {l : List Char} (h : isVideoId l = true) :
    l.length = 11 ∧ ∀ c ∈ l, isIdChar c = true := by
  simpa [isVideoId, List.all_eq_true] using h

theorem urlparse_watch (id : List Char) (hlen : id.length = 11)
    (hall : ∀ c ∈ id, isIdChar c = true) :
    urlparse ("https://www.youtube.com/watch?v=".data ++ id) =
      ⟨"https".data, "www.youtube.com".data, "/watch".data, 'v' :: '=' :: id⟩ := by
  have hhash : ∀ c ∈ id, (c != '#') = true := by
    intro c hc
    simpa using idChar_ne (hall c hc) (by decide)
  unfold urlparse
  simp +decide [List.takeWhile, List.dropWhile, List.length_append, hlen,
    startsWithL, List.isPrefixOf, lowerL,
    List.takeWhile_append_of_pos, hhash, List.takeWhile_eq_self_iff]
  intro x hx
  simpa using hhash x hx

theorem urlparse_short (id : List Char) (hall : ∀ c ∈ id, isIdChar c = true) :
    urlparse ("https://youtu.be/".data ++ id) =
      ⟨"https".data, "youtu.be".data, '/' :: id, []⟩ := by
  have hhash : ∀ c ∈ id, (c != '#') = true := by
    intro c hc
    simpa using idChar_ne (hall c hc) (by decide)
  have hq : ∀ c ∈ id, (c != '?') = true := by
    intro c hc
    simpa using idChar_ne (hall c hc) (by decide)
  have h1 : List.takeWhile (fun a => a != '#') id = id :=
    List.takeWhile_eq_self_iff.mpr (fun x hx => hhash x hx)
  have h2 : List.dropWhile (fun a => a != '?') id = [] :=
    List.dropWhile_eq_nil_iff.mpr (fun x hx => hq x hx)
  unfold urlparse
  simp +decide [List.takeWhile, List.dropWhile, List.length_append,
    startsWithL, List.isPrefixOf, lowerL, h1, h2,
    List.takeWhile_eq_self_iff]
  intro x hx
  simpa using hq x hx

theorem urlparse_short_www (id : List Char) (hall : ∀ c ∈ id, isIdChar c = true) :
    urlparse ("https://www.youtu.be/".data ++ id) =
      ⟨"https".data, "www.youtu.be".data, '/' :: id, []⟩ := by
  have hhash : ∀ c ∈ id, (c != '#') = true := by
    intro c hc
    simpa using idChar_ne (hall c hc) (by decide)
  have hq : ∀ c ∈ id, (c != '?') = true := by
    intro c hc
    simpa using idChar_ne (hall c hc) (by decide)
  have h1 : List.takeWhile (fun a => a != '#') id = id :=
    List.takeWhile_eq_self_iff.mpr (fun x hx => hhash x hx)
  have h2 : List.dropWhile (fun a => a != '?') id = [] :=
    List.dropWhile_eq_nil_iff.mpr (fun x hx => hq x hx)
  unfold urlparse
  simp +decide [List.takeWhile, List.dropWhile, List.length_append,
    startsWithL, List.isPrefixOf, lowerL, h1, h2,
    List.takeWhile_eq_self_iff]
  intro x hx
  simpa using hq x hx

theorem parseQs_v (id : List Char) (hlen : id.length = 11)
    (hall : ∀ c ∈ id, isIdChar c = true) :
    parseQsGetV ('v' :: '=' :: id) = some id := by
  have hamp : ∀ a ∈ 'v' :: '=' :: id, a ≠ '&' := by
    intro a ha
    simp only [List.mem_cons] at ha
    rcases ha with rfl | rfl | h
    · decide
    · decide
    · exact idChar_ne (hall a h) (by decide)
  have hplus : unquotePlus id = id :=
    unquotePlus_id (fun a ha => idChar_ne (hall a ha) (by decide))
  have hne : id ≠ [] := by
    intro h
    rw [h] at hlen
    cases hlen
  unfold parseQsGetV
  rw [splitOnChar_no_sep hamp]
  simp +decide [List.takeWhile, List.dropWhile, hplus, hlen, hne]

theorem pathSegments_slash (id : List Char) (hlen : id.length = 11)
    (hall : ∀ c ∈ id, isIdChar c = true) :
    pathSegments ('/' :: id) = [id] := by
  have hsplit : splitOnChar '/' id = [id] :=
    splitOnChar_no_sep (fun a ha => idChar_ne (hall a ha) (by decide))
  have hne : id ≠ [] := by
    intro h
    rw [h] at hlen
    cases hlen
  unfold pathSegments
  simp [splitOnChar, hsplit, hne]

theorem extract_bare (id : List Char) (hid : isVideoId id = true) :
    extract_video_id id = .ok (id, canonicalUrl id) := by
  obtain ⟨hlen, hall⟩ := isVideoId_spec hid
  have hs : pyStrip id = id :=
    pyStrip_eq_self (fun c hc => idChar_not_space (hall c hc))
  have hne : id ≠ [] := by
    intro h
    rw [h] at hlen
    cases hlen
  unfold extract_video_id
  rw [hs]
  simp [hne, hid]

theorem extract_watch_https (id : List Char) (hid : isVideoId id = true) :
    extract_video_id ("https://www.youtube.com/watch?v=".data ++ id) =
      .ok (id, canonicalUrl id) := by
  obtain ⟨hlen, hall⟩ := isVideoId_spec hid
  have hws : ∀ c ∈ "https://www.youtube.com/watch?v=".data ++ id, pyIsSpace c = false := by
    intro c hc
    rcases List.mem_append.mp hc with h | h
    · exact (by decide : ∀ x ∈ "https://www.youtube.com/watch?v=".data,
        pyIsSpace x = false) c h
    · exact idChar_not_space (hall c h)
  have hs := pyStrip_eq_self hws
  have hlen43 : ("https://www.youtube.com/watch?v=".data ++ id).length = 43 := by
    rw [List.length_append, hlen]
    decide
  have hnid : isVideoId ("https://www.youtube.com/watch?v=".data ++ id) = false := by
    simp [isVideoId, hlen43]
  have hnn : normalize_url ("https://www.youtube.com/watch?v=".data ++ id) =
      "https://www.youtube.com/watch?v=".data ++ id := by
    simp +decide [normalize_url, startsWithL, List.isPrefixOf]
  unfold extract_video_id
  simp only [hs, hnn, urlparse_watch id hlen hall, hnid, Bool.false_eq_true]
  simp +decide [parseQs_v id hlen hall, hid]

theorem extract_short_https (id : List Char) (hid : isVideoId id = true) :
    extract_video_id ("https://youtu.be/".data ++ id) =
      .ok (id, canonicalUrl id) := by
  obtain ⟨hlen, hall⟩ := isVideoId_spec hid
  have hws : ∀ c ∈ "https://youtu.be/".data ++ id, pyIsSpace c = false := by
    intro c hc
    rcases List.mem_append.mp hc with h | h
    · exact (by decide : ∀ x ∈ "https://youtu.be/".data, pyIsSpace x = false) c h
    · exact idChar_not_space (hall c h)
  have hs := pyStrip_eq_self hws
  have hlen28 : ("https://youtu.be/".data ++ id).length = 28 := by
    rw [List.length_append, hlen]
    decide
  have hnid : isVideoId ("https://youtu.be/".data ++ id) = false := by
    simp [isVideoId, hlen28]
  have hnn : normalize_url ("https://youtu.be/".data ++ id) =
      "https://youtu.be/".data ++ id := by
    simp +decide [normalize_url, startsWithL, List.isPrefixOf]
  unfold extract_video_id
  simp only [hs, hnn, urlparse_short id hall, hnid, Bool.false_eq_true]
  simp +decide [pathSegments_slash id hlen hall, hid]

theorem extract_watch_www (id : List Char) (hid : isVideoId id = true) :
    extract_video_id ("www.youtube.com/watch?v=".data ++ id) =
      .ok (id, canonicalUrl id) := by
  obtain ⟨hlen, hall⟩ := isVideoId_spec hid
  have hws : ∀ c ∈ "www.youtube.com/watch?v=".data ++ id, pyIsSpace c = false := by
    intro c hc
    rcases List.mem_append.mp hc with h | h
    · exact (by decide : ∀ x ∈ "www.youtube.com/watch?v=".data,
        pyIsSpace x = false) c h
    · exact idChar_not_space (hall c h)
  have hs := pyStrip_eq_self hws
  have hlen35 : ("www.youtube.com/watch?v=".data ++ id).length = 35 := by
    rw [List.length_append, hlen]
    decide
  have hnid : isVideoId ("www.youtube.com/watch?v=".data ++ id) = false := by
    simp [isVideoId, hlen35]
  have hnn : normalize_url ("www.youtube.com/watch?v=".data ++ id) =
      "https://www.youtube.com/watch?v=".data ++ id := by
    simp +decide [normalize_url, startsWithL, List.isPrefixOf]
  unfold extract_video_id
  simp only [hs, hnn, urlparse_watch id hlen hall, hnid, Bool.false_eq_true]
  simp +decide [parseQs_v id hlen hall, hid]

theorem extract_short_www (id : List Char) (hid : isVideoId id = true) :
    extract_video_id ("www.youtu.be/".data ++ id) =
      .ok (id, canonicalUrl id) := by
  obtain ⟨hlen, hall⟩ := isVideoId_spec hid
  have hws : ∀ c ∈ "www.youtu.be/".data ++ id, pyIsSpace c = false := by
    intro c hc
    rcases List.mem_append.mp hc with h | h
    · exact (by decide : ∀ x ∈ "www.youtu.be/".data, pyIsSpace x = false) c h
    · exact idChar_not_space (hall c h)
  have hs := pyStrip_eq_self hws
  have hlen24 : ("www.youtu.be/".data ++ id).length = 24 := by
    rw [List.length_append, hlen]
    decide
  have hnid : isVideoId ("www.youtu.be/".data ++ id) = false := by
    simp [isVideoId, hlen24]
  have hnn : normalize_url ("www.youtu.be/".data ++ id) =
      "https://www.youtu.be/".data ++ id := by
    simp +decide [normalize_url, startsWithL, List.isPrefixOf]
  unfold extract_video_id
  simp only [hs, hnn, urlparse_short_www id hall, hnid, Bool.false_eq_true]
  simp +decide [pathSegments_slash id hlen hall, hid]

/-! ## Claim theorems -/

/-- C3 counterexample: the claim fails as stated.  The bare ID resolves, but
the scheme-less shortened-domain form `youtu.be/<id>` of the same video is
not upgraded to `https://` (only `www.`-prefixed inputs are) and is
rejected with the invalid-reference error instead of returning the same
`VideoReference`. -/
theorem c3_counterexample :
    extract_video_id "dQw4w9WgXcQ".data =
      .ok ("dQw4w9WgXcQ".data, canonicalUrl "dQw4w9WgXcQ".data) ∧
    extract_video_id "youtu.be/dQw4w9WgXcQ".data =
      .error (.invalidReference "youtu.be/dQw4w9WgXcQ".data) :=
  ⟨by rfl, by rfl⟩

/-- C3 (amended): for every valid 11-character video ID, the resolver
returns the identical `VideoReference` (same ID, same canonical watch URL)
for the bare ID, the canonical-domain watch URL, the shortened-domain URL,
and the scheme-less forms of those URLs that begin with `www.` (the only
ones `normalize_url` upgrades to `https://`). -/
theorem c3_amended (id : List Char) (hid : isVideoId id = true) :
    extract_video_id id = .ok (id, canonicalUrl id) ∧
    extract_video_id ("https://www.youtube.com/watch?v=".data ++ id) =
      .ok (id, canonicalUrl id) ∧
    extract_video_id ("https://youtu.be/".data ++ id) =
      .ok (id, canonicalUrl id) ∧
    extract_video_id ("www.youtube.com/watch?v=".data ++ id) =
      .ok (id, canonicalUrl id) ∧
    extract_video_id ("www.youtu.be/".data ++ id) =
      .ok (id, canonicalUrl id) :=
  ⟨extract_bare id hid, extract_watch_https id hid, extract_short_https id hid,
   extract_watch_www id hid, extract_short_www id hid⟩

/-- Witness for the amended C3 at the concrete ID `dQw4w9WgXcQ`. -/
theorem c3_amended_witness :
    extract_video_id "https://youtu.be/dQw4w9WgXcQ".data =
      .ok ("dQw4w9WgXcQ".data, canonicalUrl "dQw4w9WgXcQ".data) :=
  (c3_amended "dQw4w9WgXcQ".data (by decide)).2.2.1

/-- C9: `format_timestamp` renders `MM:SS` while the hour component is zero
and `HH:MM:SS` once it is non-zero; `0 s ↦ 00:00`, `65 s ↦ 01:05`,
`3661 s ↦ 01:01:01`, and every negative input clamps to `00:00`. -/
theorem c9_format_timestamp :
    format_timestamp 0 = "00:00" ∧ format_timestamp 65 = "01:05" ∧
    format_timestamp 3661 = "01:01:01" ∧
    (∀ q : ℚ, q < 0 → format_timestamp q = "00:00") ∧
    (∀ q : ℚ, 0 ≤ q → ratToNat q / 3600 = 0 →
      format_timestamp q =
        pad2 (ratToNat q % 3600 / 60) ++ ":" ++ pad2 (ratToNat q % 3600 % 60)) ∧
    (∀ q : ℚ, 0 ≤ q → ratToNat q / 3600 ≠ 0 →
      format_timestamp q = pad2 (ratToNat q / 3600) ++ ":" ++
        pad2 (ratToNat q % 3600 / 60) ++ ":" ++ pad2 (ratToNat q % 3600 % 60)) := by
  refine ⟨by rfl, by rfl, by rfl, ?_, ?_, ?_⟩
  · intro q hq
    unfold format_timestamp
    rw [if_pos hq]
    rfl
  · intro q hq h0
    unfold format_timestamp
    rw [if_neg (not_lt.mpr hq)]
    simp [h0]
  · intro q hq h0
    unfold format_timestamp
    rw [if_neg (not_lt.mpr hq)]
    simp [h0]

/-- Witness for C9's clamping conjunct at the concrete input `-7`. -/
theorem c9_witness : format_timestamp (-7) = "00:00" :=
  c9_format_timestamp.2.2.2.1 (-7) (by norm_num)

/-- C10: any input whose parsed host merely ends in the substring
`youtu.be` — including unrelated hosts such as `notyoutu.be` — is treated
as a shortened-domain URL, and the first path segment is returned as the
video ID whenever it matches the 11-character pattern. -/
theorem c10_endswith_youtube_host (u : List Char)
    (hne : pyStrip u ≠ [])
    (hnotid : isVideoId (pyStrip u) = false)
    (hhost : endsWithL "youtu.be".data
      (lowerL (urlparse (normalize_url (pyStrip u))).netloc) = true)
    (seg : List Char) (rest : List (List Char))
    (hsegs : pathSegments (urlparse (normalize_url (pyStrip u))).path = seg :: rest)
    (hid : isVideoId seg = true) :
    extract_video_id u = .ok (seg, canonicalUrl seg) := by
  unfold extract_video_id
  simp only [hnotid, Bool.false_eq_true, hhost, hsegs]
  simp [hne, hid]

/-- Witness for C10 at the unrelated host `notyoutu.be`. -/
theorem c10_witness :
    extract_video_id "https://notyoutu.be/dQw4w9WgXcQ".data =
      .ok ("dQw4w9WgXcQ".data, canonicalUrl "dQw4w9WgXcQ".data) :=
  c10_endswith_youtube_host "https://notyoutu.be/dQw4w9WgXcQ".data
    (by decide) (by decide) (by rfl) "dQw4w9WgXcQ".data [] (by rfl) (by decide)

/-- One retried step of the list loop: a transient failure before the last
attempt sleeps the backoff delay and moves to the next attempt. -/
theorem listLoop_step {α : Type} (oracle : Nat → ListResult α) (retries r a : Nat)
    (d : List Nat) (ha : oracle a = .apiError) (hne : a ≠ retries) :
    listLoop oracle retries (r + 1) a d =
      listLoop oracle retries r (a + 1) (d ++ [retryDelayTenths a]) := by
  simp [listLoop, ha, hne]

/-- Skipping `k` consecutive transient failures from attempt `a` advances
the loop to attempt `a + k`, accumulating the `k` backoff delays. -/
theorem listLoop_skip {α : Type} (oracle : Nat → ListResult α) (retries : Nat) :
    ∀ (k a : Nat) (d : List Nat), a + k ≤ retries →
      (∀ i < k, oracle (a + i) = .apiError) →
      listLoop oracle retries (retries + 1 - a) a d =
        listLoop oracle retries (retries + 1 - (a + k)) (a + k)
          (d ++ (List.range k).map (fun i => retryDelayTenths (a + i))) := by
  intro k
  induction k with
  | zero => intro a d _ _; simp
  | succ n ih =>
    intro a d hak herr
    have ha : oracle a = .apiError := by simpa using herr 0 (by omega)
    have hne : a ≠ retries := by omega
    have hr : retries + 1 - a = (retries + 1 - (a + 1)) + 1 := by omega
    rw [hr, listLoop_step oracle retries _ a d ha hne]
    have hrec := ih (a + 1) (d ++ [retryDelayTenths a]) (by omega)
      (fun i hi => by
        have := herr (i + 1) (by omega)
        simpa [Nat.add_comm, Nat.add_assoc, Nat.add_left_comm] using this)
    rw [hrec]
    have h1 : a + 1 + n = a + (n + 1) := by omega
    rw [h1]
    congr 1
    rw [List.range_succ_eq_map]
    simp [List.map_map, Function.comp_def, Nat.add_comm, Nat.add_assoc,
      Nat.add_left_comm]

/-- C6: during list retrieval, a video-unavailable or captions-disabled
outcome fails immediately and non-retryably; any other listing failure is
retried up to the budget with backoff `min(5 s, 1.5 s × attempt_number)`
(recorded in tenths of a second) before each retry, and when every attempt
up to the budget fails transiently the loop fails with the
transcript-list-failed error. -/
theorem c6_list_retry {α : Type} (oracle : Nat → ListResult α) (retries : Nat) :
    (∀ k, k ≤ retries → (∀ i < k, oracle i = .apiError) →
      oracle k = .videoUnavailable →
      fetchTranscriptList oracle retries =
        (.error .videoUnavailable, (List.range k).map retryDelayTenths)) ∧
    (∀ k, k ≤ retries → (∀ i < k, oracle i = .apiError) →
      oracle k = .transcriptsDisabled →
      fetchTranscriptList oracle retries =
        (.error .captionsDisabled, (List.range k).map retryDelayTenths)) ∧
    (∀ k, k ≤ retries → ∀ t, (∀ i < k, oracle i = .apiError) →
      oracle k = .ok t →
      fetchTranscriptList oracle retries =
        (.ok t, (List.range k).map retryDelayTenths)) ∧
    ((∀ i, i ≤ retries → oracle i = .apiError) →
      fetchTranscriptList oracle retries =
        (.error .listFailed, (List.range retries).map retryDelayTenths)) := by
  have hbase : ∀ k, k ≤ retries → (∀ i < k, oracle i = .apiError) →
      ∃ r, fetchTranscriptList oracle retries =
        listLoop oracle retries (r + 1) k
          ((List.range k).map retryDelayTenths) ∧ (k = retries ↔ r = 0) := by
    intro k hk herr
    have h0 : retries + 1 - 0 = retries + 1 := by omega
    have := listLoop_skip oracle retries k 0 [] (by omega)
      (fun i hi => by simpa using herr i hi)
    refine ⟨retries - k, ?_, by omega⟩
    have hrk : retries + 1 - (0 + k) = retries - k + 1 := by omega
    rw [fetchTranscriptList, ← h0, this, hrk]
    simp
  refine ⟨?_, ?_, ?_, ?_⟩
  · intro k hk herr hko
    obtain ⟨r, heq, _⟩ := hbase k hk herr
    rw [heq, listLoop, hko]
  · intro k hk herr hko
    obtain ⟨r, heq, _⟩ := hbase k hk herr
    rw [heq, listLoop, hko]
  · intro k hk t herr hok
    obtain ⟨r, heq, _⟩ := hbase k hk herr
    rw [heq, listLoop, hok]
  · intro herr
    obtain ⟨r, heq, hiff⟩ := hbase retries (le_refl _)
      (fun i hi => herr i (by omega))
    rw [heq, listLoop, herr retries (le_refl _)]
    simp [hiff.mp rfl]

/-- Witness for C6: with a budget of 2 extra attempts, an oracle that fails
transiently once and then reports the video unavailable stops immediately
after the single 1.5 s backoff. -/
theorem c6_witness :
    fetchTranscriptList
      (fun i => if i = 0 then ListResult.apiError else ListResult.videoUnavailable
        (α := Unit)) 2 =
      (.error .videoUnavailable, [15]) := by
  have h := (c6_list_retry
    (fun i => if i = 0 then ListResult.apiError else ListResult.videoUnavailable
      (α := Unit)) 2).1 1 (by omega)
    (fun i hi => by
      have : i = 0 := by omega
      subst this
      rfl)
    (by rfl)
  simpa using h

/-- C7: track selection searches generated-then-manual when the preference
flag favors generated captions and manual-then-generated otherwise; within
each category the find operation returns the first track matching the
ordered preferred-language list; when neither category matches, selection
fails with the no-captions-available error. -/
theorem c7_track_selection (prefer_generated : Bool) (tr : Transcripts)
    (langs : List String) :
    selectTrack prefer_generated tr langs =
      (match findTranscript langs
          (if prefer_generated then tr.generated else tr.manual) with
       | some t => .ok (if prefer_generated then "generated" else "manual", t)
       | none =>
         match findTranscript langs
             (if prefer_generated then tr.manual else tr.generated) with
         | some t => .ok (if prefer_generated then "manual" else "generated", t)
         | none => .error .noCaptions) := by
  cases prefer_generated <;>
    · unfold selectTrack
      cases h1 : findTranscript langs tr.generated <;>
        cases h2 : findTranscript langs tr.manual <;>
          simp [h1, h2]

/-- A selected track's category label is `generated` or `manual`. -/
theorem selectTrack_kind {prefer_generated : Bool} {tr : Transcripts}
    {langs : List String} {kind : String} {chosen : Track}
    (h : selectTrack prefer_generated tr langs = .ok (kind, chosen)) :
    kind = "generated" ∨ kind = "manual" := by
  unfold selectTrack at h
  cases prefer_generated <;>
    cases h1 : findTranscript langs tr.generated <;>
      cases h2 : findTranscript langs tr.manual <;>
        simp [h1, h2] at h <;> tauto

/-- C1: whenever the requested translation cannot be obtained — the
`translate` call or the translated track's fetch fails with any failure
class of the external captions library — `fetch_transcript` still succeeds
and returns a selection whose kind is the selected category (never
`translated`), whose `translated_to` is unset, and whose entries are the
normalization of the already-fetched base-track entries. -/
theorem c1_translation_fallback (oracle : Nat → ListResult Transcripts)
    (prefer_generated : Bool) (languages : List String) (ttarget : String)
    (retries : Nat) (tr : Transcripts) (kind : String) (chosen : Track)
    (base : List RawEntry)
    (hlist : (fetchTranscriptList oracle retries).1 = .ok tr)
    (hsel : selectTrack prefer_generated tr (languagePreferences languages) =
      .ok (kind, chosen))
    (hbase : chosen.fetchResult = .ok base)
    (h1 : ttarget ≠ "")
    (h2 : String.mk (pyStrip ttarget.data) ≠ "")
    (hfail : (∃ e, chosen.translate (String.mk (pyStrip ttarget.data)) = .error e) ∨
      (∃ tt, chosen.translate (String.mk (pyStrip ttarget.data)) = .ok tt ∧
        ∃ e, tt.fetchResult = .error e)) :
    ∃ sel, fetch_transcript oracle prefer_generated languages (some ttarget) retries =
        .ok sel ∧
      sel.kind = kind ∧ sel.kind ≠ "translated" ∧ sel.translated_to = none ∧
      sel.entries = normalize_entries base := by
  have hkind : kind ≠ "translated" := by
    rcases selectTrack_kind hsel with rfl | rfl <;> decide
  refine ⟨⟨kind, some kind, chosen.language_code, none, normalize_entries base⟩,
    ?_, rfl, hkind, rfl, rfl⟩
  unfold fetch_transcript
  rw [hlist]
  simp only [hsel, hbase, translationTarget, if_neg h1]
  rw [if_pos h2]
  rcases hfail with ⟨e, he⟩ | ⟨tt, htt, e, he⟩
  · rw [he]
  · rw [htt]
    simp only [he]

/-- Witness for C1: a concrete capability whose only track is an English
generated track that refuses translation; requesting German still
succeeds with the generated kind and the base entries. -/
theorem c1_witness :
    ∃ sel, fetch_transcript
        (fun _ => ListResult.ok
          (⟨[⟨"en", .ok [⟨some "hi", some 1, some 2⟩],
              fun _ => .error .notTranslatable⟩], []⟩ : Transcripts))
        true [] (some "de") 2 = .ok sel ∧
      sel.kind = "generated" ∧ sel.kind ≠ "translated" ∧
      sel.translated_to = none ∧
      sel.entries = normalize_entries [⟨some "hi", some 1, some 2⟩] := by
  exact c1_translation_fallback _ true [] "de" 2
    ⟨[⟨"en", .ok [⟨some "hi", some 1, some 2⟩],
        fun _ => .error .notTranslatable⟩], []⟩
    "generated"
    ⟨"en", .ok [⟨some "hi", some 1, some 2⟩], fun _ => .error .notTranslatable⟩
    [⟨some "hi", some 1, some 2⟩]
    (by rfl) (by rfl) (by rfl) (by decide) (by decide)
    (Or.inl ⟨.notTranslatable, by rfl⟩)

/-- A rendered content line is never empty: with timestamps it contains the
`" - "` separator, without them it is the non-empty cleaned text. -/
theorem contentLine_ne_empty (q : ℚ) (text : String) (ht : text ≠ "")
    (ts : Bool) :
    (if ts then format_timestamp q ++ " - " ++ text else text) ≠ "" := by
  cases ts
  · simpa using ht
  · rw [if_pos rfl]
    intro hcontr
    have hlen := congrArg String.length hcontr
    simp only [String.length_append] at hlen
    have h3 : (" - " : String).length = 3 := by rfl
    have h0 : ("" : String).length = 0 := by rfl
    omega

/-- With tags not kept, one step of `write_txt`'s loop either leaves the
lines unchanged, appends a single blank (and only when the current last
line is not blank), or appends one non-blank content line. -/
theorem txtStep_shapes (ts : Bool) (acc : List String) (e : CaptionEntry) :
    txtStep ts false acc e = acc ∨
    (txtStep ts false acc e = acc ++ [""] ∧ acc ≠ [] ∧
      acc.getLast? ≠ some "") ∨
    (∃ s, s ≠ "" ∧ txtStep ts false acc e = acc ++ [s]) := by
  unfold txtStep
  simp only [Bool.not_false, Bool.true_and, Bool.false_and, false_and]
  by_cases hsd : (e.text != "" && isStageDirectionFull (pyStrip e.text.data)) = true
  · rw [if_pos hsd]
    by_cases hcond : acc ≠ [] ∧ acc.getLast? ≠ some ""
    · exact Or.inr (Or.inl ⟨if_pos hcond, hcond.1, hcond.2⟩)
    · exact Or.inl (if_neg hcond)
  · rw [if_neg hsd]
    by_cases htext : String.mk (clean_caption_text e.text.data false) = ""
    · rw [if_pos htext]
      exact Or.inl rfl
    · rw [if_neg htext]
      refine Or.inr (Or.inr
        ⟨if ts then format_timestamp e.start ++ " - " ++
            String.mk (clean_caption_text e.text.data false)
          else String.mk (clean_caption_text e.text.data false),
          contentLine_ne_empty e.start _ htext ts, ?_⟩)
      cases ts <;> simp

/-- Folding `write_txt`'s body loop over any entry list only appends, and
the appended lines — seen together with the last line already present —
never contain two consecutive blanks. -/
theorem txtFold_chain (ts : Bool) (entries : List CaptionEntry) :
    ∀ (acc : List String) (last : String), acc.getLast? = some last →
      ∃ add, entries.foldl (txtStep ts false) acc = acc ++ add ∧
        List.Chain' (fun a b => ¬(a = "" ∧ b = "")) (last :: add) := by
  induction entries with
  | nil =>
    intro acc last _
    exact ⟨[], by simp, List.chain'_singleton last⟩
  | cons e rest ih =>
    intro acc last hlast
    rcases txtStep_shapes ts acc e with h | ⟨h, hne, hl⟩ | ⟨s, hs, h⟩
    · rw [List.foldl_cons, h]
      exact ih acc last hlast
    · rw [List.foldl_cons, h]
      have hlast' : (acc ++ [""]).getLast? = some "" := by simp
      obtain ⟨add, heq, hchain⟩ := ih (acc ++ [""]) "" hlast'
      refine ⟨"" :: add, by simpa using heq, ?_⟩
      rw [List.chain'_cons']
      refine ⟨?_, hchain⟩
      intro y _
      intro hcontr
      rw [hcontr.1] at hlast
      exact hl hlast
    · rw [List.foldl_cons, h]
      have hlast' : (acc ++ [s]).getLast? = some s := by simp
      obtain ⟨add, heq, hchain⟩ := ih (acc ++ [s]) s hlast'
      refine ⟨s :: add, by simpa using heq, ?_⟩
      rw [List.chain'_cons']
      refine ⟨?_, hchain⟩
      intro y hy hcontr
      have hys : s = y := by simpa using hy
      exact hs (hys ▸ hcontr.2)

/-- C8: with tags not kept, an entry whose trimmed raw text is exactly one
stage-direction marker emits no content line and at most one blank
separator (never after an existing blank, so never duplicated and never as
the first body line); the body after the header blank starts with a content
line and never holds two consecutive blanks; and the concrete entries
`["[Music]", "hello", "[Music]", "world"]` render to exactly the two
content lines `hello` and `world` separated by one blank. -/
theorem c8_stage_suppression :
    (∀ (ts : Bool) (acc : List String) (e : CaptionEntry), e.text ≠ "" →
      isStageDirectionFull (pyStrip e.text.data) = true →
      txtStep ts false acc e = acc ∨
        (txtStep ts false acc e = acc ++ [""] ∧ acc ≠ [] ∧
          acc.getLast? ≠ some "")) ∧
    (∀ (transcript : TranscriptSelection) (canonical_url title : String)
        (ts : Bool),
      ∃ body, writeTxtLines transcript canonical_url title ts false =
          txtHeader title canonical_url ++ body ∧
        body.head? ≠ some "" ∧
        List.Chain' (fun a b => ¬(a = "" ∧ b = "")) body) ∧
    writeTxtLines ⟨"manual", some "manual", "en", none,
        [⟨"[Music]", 0, 1⟩, ⟨"hello", 1, 1⟩, ⟨"[Music]", 2, 1⟩,
         ⟨"world", 3, 1⟩]⟩ "u" "T" false false =
      ["Title: T", "Source: u", "", "hello", "", "world"] := by
  refine ⟨?_, ?_, by rfl⟩
  · intro ts acc e hraw hfull
    unfold txtStep
    simp only [Bool.not_false, Bool.true_and]
    have hb : (e.text != "" && isStageDirectionFull (pyStrip e.text.data)) = true := by
      simp [hraw, hfull]
    rw [if_pos hb]
    by_cases hcond : acc ≠ [] ∧ acc.getLast? ≠ some ""
    · exact Or.inr ⟨if_pos hcond, hcond.1, hcond.2⟩
    · exact Or.inl (if_neg hcond)
  · intro transcript canonical_url title ts
    have hlast : (txtHeader title canonical_url).getLast? = some "" := by
      unfold txtHeader
      cases htitle : decide (title ≠ "") <;> simp
    obtain ⟨add, heq, hchain⟩ :=
      txtFold_chain ts transcript.entries (txtHeader title canonical_url) "" hlast
    refine ⟨add, heq, ?_, (List.chain'_cons'.mp hchain).2⟩
    intro hcontr
    rcases hadd : add with _ | ⟨a, t⟩
    · rw [hadd] at hcontr
      cases hcontr
    · rw [hadd] at hcontr
      have := (List.chain'_cons'.mp hchain).1
      rw [hadd] at this
      have h1 := this a (by simp)
      simp only [List.head?_cons, Option.some.injEq] at hcontr
      exact h1 ⟨rfl, hcontr⟩

/-- Witness for C8's per-entry conjunct at a concrete marker entry. -/
theorem c8_witness :
    txtStep false false ["x"] ⟨"[Music]", 0, 1⟩ = ["x"] ∨
      (txtStep false false ["x"] ⟨"[Music]", 0, 1⟩ = ["x", ""] ∧
        (["x"] : List String) ≠ [] ∧
        (["x"] : List String).getLast? ≠ some "") :=
  c8_stage_suppression.1 false ["x"] ⟨"[Music]", 0, 1⟩ (by decide) (by rfl)

/-! ## Structural equivalence of the two renderers (C2) -/

theorem txtStruct_append (l m : List String) :
    txtStruct (l ++ m) = txtStruct l ++ txtStruct m := List.map_append _ _ _

theorem docxStruct_append (l m : List DocxBlock) :
    docxStruct (l ++ m) = docxStruct l ++ docxStruct m := List.map_append _ _ _

theorem txtStruct_blank : txtStruct [""] = [.blank] := by rfl

theorem docxStruct_blankPara : docxStruct [.para []] = [.blank] := by rfl

/-- A non-empty string appended to a prefix is non-empty. -/
theorem append_ne_empty_left (a b : String) (ha : a ≠ "") : (a ++ b) ≠ "" := by
  intro h
  have hlen := congrArg String.length h
  simp only [String.length_append] at hlen
  have h0 : ("" : String).length = 0 := by rfl
  have ha0 : a.length ≠ 0 := by
    intro hz
    exact ha (String.ext (List.eq_nil_of_length_eq_zero hz))
  omega

/-- A string with a non-empty right component is non-empty. -/
theorem append_ne_empty_right (a b : String) (hb : b ≠ "") : (a ++ b) ≠ "" := by
  intro h
  have hlen := congrArg String.length h
  simp only [String.length_append] at hlen
  have h0 : ("" : String).length = 0 := by rfl
  have hb0 : b.length ≠ 0 := by
    intro hz
    exact hb (String.ext (List.eq_nil_of_length_eq_zero hz))
  omega

/-- Appending one non-blank content line to the text side and the matching
one-paragraph block to the document side preserves structural equality. -/
theorem struct_content_append (cl : String) (r : DocxRun) (rs : List DocxRun)
    (hcl : cl ≠ "") (hrt : runsText (r :: rs) = cl)
    (acc : List String) (blocks : List DocxBlock)
    (hstruct : txtStruct acc = docxStruct blocks) :
    txtStruct (acc ++ [cl]) = docxStruct (blocks ++ [.para (r :: rs)]) := by
  rw [txtStruct_append, docxStruct_append, hstruct]
  congr 1
  have h1 : txtStruct [cl] = [.content cl] := by simp [txtStruct, hcl]
  have h2 : docxStruct [.para (r :: rs)] = [.content (runsText (r :: rs))] := by rfl
  rw [h1, h2, hrt]

/-- One step in lock-step: applied to structurally equal accumulators whose
blank-flag matches the text side's last line, the two renderers' per-entry
steps keep the structures equal and the flags in correspondence. -/
theorem struct_step (ts kt : Bool) (e : CaptionEntry) (acc : List String)
    (blocks : List DocxBlock) (hne : acc ≠ [])
    (hstruct : txtStruct acc = docxStruct blocks) :
    txtStruct (txtStep ts kt acc e) =
      docxStruct ((docxStep ts kt (blocks, decide (acc.getLast? = some "")) e).1) ∧
    ((docxStep ts kt (blocks, decide (acc.getLast? = some "")) e).2 = true ↔
      (txtStep ts kt acc e).getLast? = some "") := by
  unfold txtStep docxStep
  by_cases hsup : (!kt && e.text != "" && isStageDirectionFull (pyStrip e.text.data)) = true
  · rw [if_pos hsup, if_pos hsup]
    by_cases hlb : acc.getLast? = some ""
    · rw [if_neg (show ¬(acc ≠ [] ∧ acc.getLast? ≠ some "") from fun hc => hc.2 hlb),
        if_neg (show ¬((!decide (acc.getLast? = some "")) = true) from by simp [hlb])]
      exact ⟨hstruct, by simp [hlb]⟩
    · rw [if_pos (show acc ≠ [] ∧ acc.getLast? ≠ some "" from ⟨hne, hlb⟩),
        if_pos (show (!decide (acc.getLast? = some "")) = true from by simp [hlb])]
      refine ⟨?_, by simp⟩
      rw [txtStruct_append, docxStruct_append, hstruct, txtStruct_blank,
        docxStruct_blankPara]
  · rw [if_neg hsup, if_neg hsup]
    by_cases htext : String.mk (clean_caption_text e.text.data kt) = ""
    · rw [if_pos htext, if_pos htext]
      exact ⟨hstruct, by simp⟩
    · rw [if_neg htext, if_neg htext]
      have hwith : (format_timestamp e.start ++ " - " ++
          String.mk (clean_caption_text e.text.data kt)) ≠ "" :=
        append_ne_empty_right _ _ htext
      have hsep : ∀ (acc2 : List String) (blocks2 : List DocxBlock),
          txtStruct acc2 = docxStruct blocks2 →
          txtStruct (if ts = true
              then acc2 ++ [format_timestamp e.start ++ " - " ++
                String.mk (clean_caption_text e.text.data kt)]
              else acc2 ++ [String.mk (clean_caption_text e.text.data kt)]) =
            docxStruct (blocks2 ++ [.para (if ts = true
              then [⟨format_timestamp e.start ++ " - ", true⟩,
                ⟨String.mk (clean_caption_text e.text.data kt), false⟩]
              else [⟨String.mk (clean_caption_text e.text.data kt), false⟩])]) := by
        intro acc2 blocks2 hs2
        cases ts
        · simp only [Bool.false_eq_true, if_false]
          exact struct_content_append _ _ _ htext (by simp [runsText]) acc2 blocks2 hs2
        · simp only [if_pos rfl]
          exact struct_content_append _ _ _ hwith (by simp [runsText]) acc2 blocks2 hs2
      have hflag : ∀ acc2 : List String,
          (false = true ↔ ((if ts = true
              then acc2 ++ [format_timestamp e.start ++ " - " ++
                String.mk (clean_caption_text e.text.data kt)]
              else acc2 ++ [String.mk (clean_caption_text e.text.data kt)]).getLast?
            = some "")) := by
        intro acc2
        cases ts
        · simp [htext]
        · simp [hwith]
      by_cases hisd : (kt && e.text != "" && isStageDirectionFull (pyStrip e.text.data)) = true
      · by_cases hlb : acc.getLast? = some ""
        · rw [if_neg (show ¬((kt && e.text != "" &&
              isStageDirectionFull (pyStrip e.text.data)) = true ∧ acc ≠ [] ∧
              acc.getLast? ≠ some "") from fun hc => hc.2.2 hlb),
            if_neg (show ¬(((kt && e.text != "" &&
              isStageDirectionFull (pyStrip e.text.data)) &&
              !decide (acc.getLast? = some "")) = true) from by simp [hlb])]
          exact ⟨hsep acc blocks hstruct, hflag acc⟩
        · rw [if_pos (show (kt && e.text != "" &&
              isStageDirectionFull (pyStrip e.text.data)) = true ∧ acc ≠ [] ∧
              acc.getLast? ≠ some "" from ⟨hisd, hne, hlb⟩),
            if_pos (show ((kt && e.text != "" &&
              isStageDirectionFull (pyStrip e.text.data)) &&
              !decide (acc.getLast? = some "")) = true from by simp [hisd, hlb])]
          refine ⟨hsep (acc ++ [""]) (blocks ++ [.para []]) ?_, hflag (acc ++ [""])⟩
          rw [txtStruct_append, docxStruct_append, hstruct, txtStruct_blank,
            docxStruct_blankPara]
      · rw [if_neg (show ¬((kt && e.text != "" &&
            isStageDirectionFull (pyStrip e.text.data)) = true ∧ acc ≠ [] ∧
            acc.getLast? ≠ some "") from fun hc => hisd hc.1),
          if_neg (show ¬(((kt && e.text != "" &&
            isStageDirectionFull (pyStrip e.text.data)) &&
            !decide (acc.getLast? = some "")) = true) from by simp [hisd])]
        exact ⟨hsep acc blocks hstruct, hflag acc⟩

/-- A step of the text renderer never empties a non-empty line list. -/
theorem txtStep_ne_nil (ts kt : Bool) (acc : List String) (e : CaptionEntry)
    (hne : acc ≠ []) : txtStep ts kt acc e ≠ [] := by
  unfold txtStep
  by_cases h1 : (!kt && e.text != "" && isStageDirectionFull (pyStrip e.text.data)) = true
  · rw [if_pos h1]
    split_ifs <;> simp [hne]
  · rw [if_neg h1]
    by_cases h2 : String.mk (clean_caption_text e.text.data kt) = ""
    · rw [if_pos h2]
      exact hne
    · rw [if_neg h2]
      cases ts <;> simp

/-- The two renderers' body loops preserve structural equality in
lock-step. -/
theorem struct_fold (ts kt : Bool) (entries : List CaptionEntry) :
    ∀ (acc : List String) (blocks : List DocxBlock) (pb : Bool), acc ≠ [] →
      txtStruct acc = docxStruct blocks →
      (pb = true ↔ acc.getLast? = some "") →
      txtStruct (entries.foldl (txtStep ts kt) acc) =
        docxStruct ((entries.foldl (docxStep ts kt) (blocks, pb)).1) := by
  induction entries with
  | nil =>
    intro acc blocks pb _ hstruct _
    simpa using hstruct
  | cons e rest ih =>
    intro acc blocks pb hne hstruct hpb
    have hpbeq : pb = decide (acc.getLast? = some "") := by
      by_cases h : acc.getLast? = some ""
      · simp [h, hpb.mpr h]
      · simp only [h, decide_eq_false_iff_not]
        cases hb : pb
        · simp
        · exact absurd (hpb.mp hb) h
    subst hpbeq
    obtain ⟨h1, h2⟩ := struct_step ts kt e acc blocks hne hstruct
    rw [List.foldl_cons, List.foldl_cons]
    have := ih (txtStep ts kt acc e)
      ((docxStep ts kt (blocks, decide (acc.getLast? = some "")) e)).1
      ((docxStep ts kt (blocks, decide (acc.getLast? = some "")) e)).2
      (txtStep_ne_nil ts kt acc e hne) h1 h2
    simpa using this

/-- The two headers agree structurally whenever the title is non-empty. -/
theorem struct_header (title url : String) (ht : title ≠ "") :
    txtStruct (txtHeader title url) = docxStruct (docxHeader title url) := by
  unfold txtHeader docxHeader
  rw [if_pos ht, if_pos ht]
  have h1 : ("Title: " ++ title) ≠ "" :=
    append_ne_empty_left _ _ (by decide)
  have h2 : ("Source: " ++ url) ≠ "" :=
    append_ne_empty_left _ _ (by decide)
  simp [txtStruct, docxStruct, blockPlainText, runsText, h1, h2]

/-- C2 counterexample: with an empty title the two writers' structures
differ — the text writer omits the title line while the document writer
emits a default heading, so the header line counts disagree. -/
theorem c2_counterexample :
    txtStruct (writeTxtLines ⟨"manual", some "manual", "en", none, []⟩
        "u" "" false false) ≠
      docxStruct (writeDocxBlocks ⟨"manual", some "manual", "en", none, []⟩
        "u" "" false false) := by
  decide

/-- C2 (amended): for every transcript selection, URL, flag combination and
non-empty title, the plain-text writer and the document writer emit the
same sequence of structural lines — header lines, one blank, then identical
content/blank-separator lines in the same order — once the cosmetic
timestamp-prefix styling and hyperlink-vs-plain-URL encodings are projected
away. -/
theorem c2_amended (transcript : TranscriptSelection)
    (canonical_url title : String) (ts kt : Bool) (htitle : title ≠ "") :
    txtStruct (writeTxtLines transcript canonical_url title ts kt) =
      docxStruct (writeDocxBlocks transcript canonical_url title ts kt) := by
  unfold writeTxtLines writeDocxBlocks
  apply struct_fold
  · simp [txtHeader]
  · exact struct_header title canonical_url htitle
  · simp [txtHeader]

/-- Witness for the amended C2 at a concrete selection and title. -/
theorem c2_witness :
    txtStruct (writeTxtLines ⟨"manual", some "manual", "en", none,
        [⟨"Hello, world.", 0, 2⟩, ⟨"[Music]", 2, 1⟩, ⟨"Bye", 5, 1⟩]⟩
      "u" "Demo" true false) =
      docxStruct (writeDocxBlocks ⟨"manual", some "manual", "en", none,
        [⟨"Hello, world.", 0, 2⟩, ⟨"[Music]", 2, 1⟩, ⟨"Bye", 5, 1⟩]⟩
      "u" "Demo" true false) :=
  c2_amended _ "u" "Demo" true false (by decide)

/-! ## Sanitizer invariants (C5, C4) -/

/-- A character kept by the filter is printable and legal (its category
class excludes the control range). -/
theorem keepChar_good {c : Char} (h : keepChar c = true) :
    32 ≤ c.toNat ∧ c.toNat ≠ 127 ∧ illegalFsChars.contains c = false := by
  simp only [keepChar, Bool.and_eq_true, Bool.not_eq_true'] at h
  obtain ⟨⟨⟨⟨hcc, _⟩, _⟩, _⟩, hil⟩ := h
  simp only [isCatCc, decide_eq_false_iff_not] at hcc
  exact ⟨by omega, by omega, hil⟩

/-- A printable legal ASCII character passes the filter (every dropped
category lies outside printable ASCII). -/
theorem good_keepChar {c : Char} (h1 : c.toNat < 128) (h2 : 32 ≤ c.toNat)
    (h3 : c.toNat ≠ 127) (h4 : illegalFsChars.contains c = false) :
    keepChar c = true := by
  simp only [keepChar, Bool.and_eq_true, Bool.not_eq_true']
  refine ⟨⟨⟨⟨?_, ?_⟩, ?_⟩, ?_⟩, h4⟩ <;>
    · simp only [isCatCc, isCatCf, isCatCsCo, isCatSo, decide_eq_false_iff_not]
      omega

/-- Whitespace collapsing only emits input characters and spaces. -/
theorem mem_collapseWsGo : ∀ (l : List Char) (b : Bool) (c : Char),
    c ∈ collapseWsGo b l → c ∈ l ∨ c = ' ' := by
  intro l
  induction l with
  | nil =>
    intro b c h
    simp [collapseWsGo] at h
  | cons a t ih =>
    intro b c h
    unfold collapseWsGo at h
    by_cases ha : pyIsSpace a = true
    · rw [if_pos ha] at h
      cases b with
      | true =>
        rw [if_pos rfl] at h
        rcases ih true c h with h | h
        · exact Or.inl (List.mem_cons_of_mem a h)
        · exact Or.inr h
      | false =>
        rw [if_neg (by simp)] at h
        rcases List.mem_cons.mp h with rfl | h
        · exact Or.inr rfl
        · rcases ih true c h with h | h
          · exact Or.inl (List.mem_cons_of_mem a h)
          · exact Or.inr h
    · rw [if_neg ha] at h
      rcases List.mem_cons.mp h with rfl | h
      · exact Or.inl (List.mem_cons_self _ _)
      · rcases ih false c h with h | h
        · exact Or.inl (List.mem_cons_of_mem a h)
        · exact Or.inr h

/-- The punctuation-spacing fix only deletes characters. -/
theorem mem_punctFix : ∀ (l : List Char) (c : Char), c ∈ punctFix l → c ∈ l := by
  intro l
  induction l with
  | nil =>
    intro c h
    simp [punctFix] at h
  | cons a t ih =>
    intro c h
    unfold punctFix at h
    by_cases ha : pyIsSpace a = true
    · rw [if_pos ha] at h
      rcases hp : punctFix t with _ | ⟨d, ds⟩
      · rw [hp] at h
        have : c = a := by simpa using h
        subst this
        exact List.mem_cons_self _ _
      · rw [hp] at h
        have h' : c ∈ if isPunctMark d = true then d :: ds else a :: d :: ds := h
        by_cases hd : isPunctMark d = true
        · rw [if_pos hd] at h'
          exact List.mem_cons_of_mem a (ih c (by rw [hp]; exact h'))
        · rw [if_neg hd] at h'
          rcases List.mem_cons.mp h' with rfl | h2
          · exact List.mem_cons_self _ _
          · exact List.mem_cons_of_mem a (ih c (by rw [hp]; exact h2))
    · rw [if_neg ha] at h
      rcases List.mem_cons.mp h with rfl | h2
      · exact List.mem_cons_self _ _
      · exact List.mem_cons_of_mem a (ih c h2)

/-- `strip(" .")` trims from both ends only. -/
theorem stripDots_sublist (l : List Char) : List.Sublist (stripDots l) l := by
  unfold stripDots
  have h2 : List.Sublist ((l.dropWhile isSpaceDot).reverse.dropWhile isSpaceDot).reverse
      (l.dropWhile isSpaceDot).reverse.reverse :=
    (List.dropWhile_sublist isSpaceDot).reverse
  rw [List.reverse_reverse] at h2
  exact h2.trans (List.dropWhile_sublist isSpaceDot)

/-- `rstrip()` trims from the right end only. -/
theorem pyRstrip_sublist (l : List Char) : List.Sublist (pyRstrip l) l := by
  unfold pyRstrip
  have h2 : List.Sublist (l.reverse.dropWhile pyIsSpace).reverse l.reverse.reverse :=
    (List.dropWhile_sublist pyIsSpace).reverse
  rwa [List.reverse_reverse] at h2

/-- Whitespace collapsing as membership on the wrapper. -/
theorem mem_collapseWs {l : List Char} {c : Char} (h : c ∈ collapseWs l) :
    c ∈ l ∨ c = ' ' := mem_collapseWsGo l false c h

/-- On a non-empty input the sanitizer is the reserved-name guard applied
to the truncated pipeline. -/
theorem sanitize_filename_eq (translit : List Char → List Char)
    (base : List Char) (hb : base ≠ []) :
    sanitize_filename_with translit base =
      (if (upperL (sanTrunc translit base)) ∈ windowsReserved then
        sanTrunc translit base ++ ['_']
       else sanTrunc translit base) := by
  unfold sanitize_filename_with sanTrunc sanCore
  rw [if_neg hb]

/-- Whitespace collapsing leaves no whitespace other than single spaces. -/
theorem collapseWsGo_ws_space : ∀ (l : List Char) (b : Bool) (c : Char),
    c ∈ collapseWsGo b l → pyIsSpace c = true → c = ' ' := by
  intro l
  induction l with
  | nil =>
    intro b c hc _
    simp [collapseWsGo] at hc
  | cons a t ih =>
    intro b c hc hws
    unfold collapseWsGo at hc
    by_cases ha : pyIsSpace a = true
    · rw [if_pos ha] at hc
      cases b with
      | true =>
        rw [if_pos rfl] at hc
        exact ih true c hc hws
      | false =>
        rw [if_neg (by simp)] at hc
        rcases List.mem_cons.mp hc with rfl | hc
        · rfl
        · exact ih true c hc hws
    · rw [if_neg ha] at hc
      rcases List.mem_cons.mp hc with rfl | hc
      · exact absurd hws ha
      · exact ih false c hc hws

/-- Every character of the pipeline through step 4 is ASCII, whatever the
transliteration emits. -/
theorem sanCore_ascii (translit : List Char → List Char) (base : List Char) :
    ∀ c ∈ sanCore translit base, c.toNat < 128 := by
  intro c hc
  unfold sanCore at hc
  rcases mem_collapseWs ((stripDots_sublist _).subset hc) with hc2 | rfl
  · simpa using (List.mem_filter.mp hc2).2
  · decide

/-- No whitespace other than the single space survives the pipeline
through step 4, whatever the transliteration emits. -/
theorem sanCore_ws_space (translit : List Char → List Char) (base : List Char) :
    ∀ c ∈ sanCore translit base, pyIsSpace c = true → c = ' ' := by
  intro c hc
  unfold sanCore at hc
  exact collapseWsGo_ws_space _ false c ((stripDots_sublist _).subset hc)

/-- No whitespace other than the single space survives truncation. -/
theorem sanTrunc_ws_space (translit : List Char → List Char) (base : List Char) :
    ∀ c ∈ sanTrunc translit base, pyIsSpace c = true → c = ' ' := by
  intro c hc
  unfold sanTrunc at hc
  by_cases htr : 200 < (sanCore translit base).length
  · rw [if_pos htr] at hc
    exact sanCore_ws_space translit base c
      (((pyRstrip_sublist _).trans (List.take_sublist _ _)).subset hc)
  · rw [if_neg htr] at hc
    exact sanCore_ws_space translit base c hc

/-- The truncated pipeline is ASCII-only, whatever the transliteration
emits. -/
theorem sanTrunc_ascii (translit : List Char → List Char) (base : List Char) :
    ∀ c ∈ sanTrunc translit base, c.toNat < 128 := by
  intro c hc
  unfold sanTrunc at hc
  by_cases htr : 200 < (sanCore translit base).length
  · rw [if_pos htr] at hc
    exact sanCore_ascii translit base c
      (((pyRstrip_sublist _).trans (List.take_sublist _ _)).subset hc)
  · rw [if_neg htr] at hc
    exact sanCore_ascii translit base c hc

/-- In the library-absent branch every character surviving the pipeline
through step 4 is printable legal ASCII. -/
theorem sanCore_chars (base : List Char) :
    ∀ c ∈ sanCore asciiOnly base,
      c.toNat < 128 ∧ 32 ≤ c.toNat ∧ c.toNat ≠ 127 ∧
        illegalFsChars.contains c = false := by
  intro c hc
  unfold sanCore at hc
  have hc1 := (stripDots_sublist _).subset hc
  rcases mem_collapseWs hc1 with hc2 | rfl
  · have hlt : c.toNat < 128 := by
      simpa using (List.mem_filter.mp hc2).2
    have hc3 := (List.mem_filter.mp (List.mem_filter.mp hc2).1).1
    have hc4 := (stripDots_sublist _).subset hc3
    have hc5 := mem_punctFix _ _ hc4
    rcases mem_collapseWs hc5 with hc6 | rfl
    · have hk := (List.mem_filter.mp hc6).2
      obtain ⟨h2, h3, h4⟩ := keepChar_good hk
      exact ⟨hlt, h2, h3, h4⟩
    · exact ⟨by decide, by decide, by decide, by decide⟩
  · exact ⟨by decide, by decide, by decide, by decide⟩

/-- In the library-absent branch every character surviving truncation is
printable legal ASCII. -/
theorem sanTrunc_chars (base : List Char) :
    ∀ c ∈ sanTrunc asciiOnly base,
      c.toNat < 128 ∧ 32 ≤ c.toNat ∧ c.toNat ≠ 127 ∧
        illegalFsChars.contains c = false := by
  have hcore := sanCore_chars base
  intro c hc
  unfold sanTrunc at hc
  by_cases htr : 200 < (sanCore asciiOnly base).length
  · rw [if_pos htr] at hc
    exact hcore c (((pyRstrip_sublist _).trans (List.take_sublist _ _)).subset hc)
  · rw [if_neg htr] at hc
    exact hcore c hc

/-- The truncated pipeline never exceeds 200 characters. -/
theorem sanTrunc_len (translit : List Char → List Char) (base : List Char) :
    (sanTrunc translit base).length ≤ 200 := by
  unfold sanTrunc
  by_cases htr : 200 < (sanCore translit base).length
  · rw [if_pos htr]
    have h1 := (pyRstrip_sublist ((sanCore translit base).take 200)).length_le
    have h2 := ((sanCore translit base).take_sublist 200).length_le
    have h3 : ((sanCore translit base).take 200).length ≤ 200 := by
      simp
    omega
  · rw [if_neg htr]
    omega

/-- A string whose upper-casing is a reserved device name has at most four
characters. -/
theorem reserved_len {l : List Char} (h : upperL l ∈ windowsReserved) :
    l.length ≤ 4 := by
  have hm : (upperL l).length = l.length := List.length_map _ _
  have h4 : (upperL l).length ≤ 4 := by
    simp only [windowsReserved, List.mem_cons, List.not_mem_nil, or_false] at h
    rcases h with h|h|h|h|h|h|h|h|h|h|h|h|h|h|h|h|h|h|h|h|h|h <;>
      · rw [h]
        decide
  omega

/-- No reserved device name ends in the disambiguating underscore. -/
theorem append_underscore_not_reserved (l : List Char) :
    (l ++ ['_']) ∉ windowsReserved := by
  intro h
  simp only [windowsReserved, List.mem_cons, List.not_mem_nil, or_false] at h
  rcases h with h|h|h|h|h|h|h|h|h|h|h|h|h|h|h|h|h|h|h|h|h|h <;>
    · have := congrArg List.getLast? h
      simp at this

/-- The modelled transliteration is the identity on ASCII input. -/
theorem pyUnidecode_ascii_id : ∀ (l : List Char),
    (∀ c ∈ l, c.toNat < 128) → pyUnidecode l = l := by
  intro l
  induction l with
  | nil =>
    intro _
    rfl
  | cons a t ih =>
    intro h
    have ha : a.toNat < 128 := h a (List.mem_cons_self _ _)
    unfold pyUnidecode
    rw [if_pos ha]
    exact congrArg (fun x => a :: x)
      (ih (fun c hc => h c (List.mem_cons_of_mem _ hc)))

/-- In the library-absent branch every sanitizer output character is
printable legal ASCII (in particular none of the filesystem-illegal
characters survives). -/
theorem sanitize_chars (base : List Char) :
    ∀ c ∈ sanitize_filename base,
      c.toNat < 128 ∧ 32 ≤ c.toNat ∧ c.toNat ≠ 127 ∧
        illegalFsChars.contains c = false := by
  intro c hc
  have hc0 : c ∈ sanitize_filename_with asciiOnly base := hc
  by_cases hb : base = []
  · subst hb
    rw [show sanitize_filename_with asciiOnly ([] : List Char) = [] from rfl] at hc0
    simp at hc0
  · rw [sanitize_filename_eq asciiOnly base hb] at hc0
    by_cases hres : upperL (sanTrunc asciiOnly base) ∈ windowsReserved
    · rw [if_pos hres] at hc0
      rcases List.mem_append.mp hc0 with h | h
      · exact sanTrunc_chars base c h
      · have : c = '_' := by simpa using h
        subst this
        exact ⟨by decide, by decide, by decide, by decide⟩
    · rw [if_neg hres] at hc0
      exact sanTrunc_chars base c hc0


/-- A character with code point 32 is the space character. -/
theorem char_eq_space {c : Char} (h : c.toNat = 32) : c = ' ' :=
  Char.ext (UInt32.toNat.inj h)

/-- Among printable ASCII, the only whitespace character is the space. -/
theorem printable_ws_space {c : Char} (h1 : c.toNat < 128) (h2 : 32 ≤ c.toNat)
    (hws : pyIsSpace c = true) : c = ' ' := by
  apply char_eq_space
  simp only [pyIsSpace, decide_eq_true_eq] at hws
  omega

/-- A printable non-space character is not whitespace. -/
theorem printable_not_ws {c : Char} (h1 : c.toNat < 128) (h2 : 32 ≤ c.toNat)
    (hc : c ≠ ' ') : pyIsSpace c = false := by
  cases hws : pyIsSpace c
  · rfl
  · exact absurd (printable_ws_space h1 h2 hws) hc

/-- On a string whose whitespace is single spaces with no two adjacent,
whitespace collapsing is the identity (the flag case needs a non-space
head). -/
theorem collapseWsGo_fix : ∀ (l : List Char) (b : Bool),
    (∀ c ∈ l, pyIsSpace c = true → c = ' ') →
    List.Chain' (fun a c => ¬(a = ' ' ∧ c = ' ')) l →
    (b = true → ∀ x ∈ l.head?, x ≠ ' ') →
    collapseWsGo b l = l := by
  intro l
  induction l with
  | nil =>
    intro b _ _ _
    rfl
  | cons a t ih =>
    intro b hws hchain hb
    unfold collapseWsGo
    by_cases ha : pyIsSpace a = true
    · have ha' : a = ' ' := hws a (List.mem_cons_self _ _) ha
      subst ha'
      cases b with
      | true => exact absurd rfl (hb rfl ' ' (by simp))
      | false =>
        rw [if_pos ha, if_neg (by simp)]
        congr 1
        apply ih true
        · exact fun c hc => hws c (List.mem_cons_of_mem _ hc)
        · exact (List.chain'_cons'.mp hchain).2
        · intro _ x hx hx'
          subst hx'
          exact (List.chain'_cons'.mp hchain).1 ' ' hx ⟨rfl, rfl⟩
    · rw [if_neg ha]
      congr 1
      apply ih false
      · exact fun c hc => hws c (List.mem_cons_of_mem _ hc)
      · exact (List.chain'_cons'.mp hchain).2
      · intro h
        cases h

/-- Whitespace collapsing yields no two adjacent spaces, and starts with a
non-space when the flag is set. -/
theorem collapseWsGo_chain : ∀ (l : List Char) (b : Bool),
    List.Chain' (fun a c => ¬(a = ' ' ∧ c = ' ')) (collapseWsGo b l) ∧
    (b = true → ∀ x ∈ (collapseWsGo b l).head?, x ≠ ' ') := by
  intro l
  induction l with
  | nil =>
    intro b
    refine ⟨List.chain'_nil, ?_⟩
    intro _ x hx
    simp [collapseWsGo] at hx
  | cons a t ih =>
    intro b
    unfold collapseWsGo
    by_cases ha : pyIsSpace a = true
    · rw [if_pos ha]
      cases b with
      | true =>
        rw [if_pos rfl]
        exact ih true
      | false =>
        rw [if_neg (by simp)]
        refine ⟨?_, fun h => nomatch h⟩
        rw [List.chain'_cons']
        refine ⟨?_, (ih true).1⟩
        intro y hy hcontr
        exact (ih true).2 rfl y hy hcontr.2
    · rw [if_neg ha]
      have hane : a ≠ ' ' := by
        intro h
        subst h
        exact ha (by decide)
      refine ⟨?_, ?_⟩
      · rw [List.chain'_cons']
        exact ⟨fun y _ hcontr => hane hcontr.1, (ih false).1⟩
      · intro _ x hx
        have hxa : a = x := by simpa using hx
        subst hxa
        exact hane

/-- The head surviving `dropWhile` fails the predicate. -/
theorem head_dropWhile_false (p : Char → Bool) :
    ∀ (l : List Char), ∀ x ∈ (l.dropWhile p).head?, p x = false := by
  intro l
  induction l with
  | nil =>
    intro x hx
    simp at hx
  | cons a t ih =>
    intro x hx
    by_cases ha : p a = true
    · rw [List.dropWhile_cons_of_pos ha] at hx
      exact ih x hx
    · rw [List.dropWhile_cons_of_neg ha] at hx
      have hxa : a = x := by simpa using hx
      subst hxa
      simpa using ha

/-- Trimming from the right is a prefix of the original. -/
theorem rdrop_isPref (p : Char → Bool) (z : List Char) :
    List.IsPrefix ((z.reverse.dropWhile p).reverse) z := by
  have h : List.IsSuffix (z.reverse.dropWhile p) z.reverse :=
    List.dropWhile_suffix p
  obtain ⟨t, ht⟩ := h
  exact ⟨t.reverse, by rw [← List.reverse_append, ht, List.reverse_reverse]⟩

/-- The last character surviving a right trim fails the predicate. -/
theorem rdrop_last (p : Char → Bool) (z : List Char) :
    ∀ x ∈ ((z.reverse.dropWhile p).reverse).getLast?, p x = false := by
  intro x hx
  rw [List.getLast?_reverse] at hx
  exact head_dropWhile_false p z.reverse x hx

/-- Heads agree along a prefix. -/
theorem head_of_pref {l₁ l₂ : List Char} (h : List.IsPrefix l₁ l₂) :
    ∀ x ∈ l₁.head?, x ∈ l₂.head? := by
  obtain ⟨t, rfl⟩ := h
  intro x hx
  cases l₁ with
  | nil => simp at hx
  | cons a s => simpa using hx

theorem stripDots_head (l : List Char) :
    ∀ x ∈ (stripDots l).head?, isSpaceDot x = false := by
  intro x hx
  unfold stripDots at hx
  have hpre := rdrop_isPref isSpaceDot (l.dropWhile isSpaceDot)
  exact head_dropWhile_false isSpaceDot l x (head_of_pref hpre x hx)

theorem stripDots_last (l : List Char) :
    ∀ x ∈ (stripDots l).getLast?, isSpaceDot x = false := by
  intro x hx
  unfold stripDots at hx
  exact rdrop_last isSpaceDot (l.dropWhile isSpaceDot) x hx

theorem stripDots_isInf (l : List Char) : List.IsInfix (stripDots l) l := by
  unfold stripDots
  have h1 : List.IsPrefix
      ((l.dropWhile isSpaceDot).reverse.dropWhile isSpaceDot).reverse
      (l.dropWhile isSpaceDot) := rdrop_isPref _ _
  have h2 : List.IsSuffix (l.dropWhile isSpaceDot) l := List.dropWhile_suffix _
  exact h1.isInfix.trans h2.isInfix

theorem pyRstrip_isPref (l : List Char) : List.IsPrefix (pyRstrip l) l :=
  rdrop_isPref pyIsSpace l

theorem pyRstrip_last (l : List Char) :
    ∀ x ∈ (pyRstrip l).getLast?, pyIsSpace x = false :=
  rdrop_last pyIsSpace l

/-- `strip(" .")` is the identity when both ends are already clean. -/
theorem stripDots_fix {l : List Char}
    (h1 : ∀ x ∈ l.head?, isSpaceDot x = false)
    (h2 : ∀ x ∈ l.getLast?, isSpaceDot x = false) : stripDots l = l := by
  unfold stripDots
  have hd : l.dropWhile isSpaceDot = l := by
    cases l with
    | nil => rfl
    | cons a t =>
      rw [List.dropWhile_cons_of_neg (by simp [h1 a (by simp)])]
  rw [hd]
  have hr : l.reverse.dropWhile isSpaceDot = l.reverse := by
    cases hrev : l.reverse with
    | nil => rfl
    | cons b t =>
      have hb : b ∈ l.getLast? := by
        show l.getLast? = some b
        rw [← List.head?_reverse, hrev]
        rfl
      rw [List.dropWhile_cons_of_neg (by simp [h2 b hb])]
  rw [hr, List.reverse_reverse]

/-- The pipeline through step 4 has no two adjacent spaces. -/
theorem sanCore_chain (translit : List Char → List Char) (base : List Char) :
    List.Chain' (fun a c => ¬(a = ' ' ∧ c = ' ')) (sanCore translit base) := by
  unfold sanCore
  exact List.Chain'.infix ((collapseWsGo_chain _ false).1) (stripDots_isInf _)

theorem sanTrunc_chain (translit : List Char → List Char) (base : List Char) :
    List.Chain' (fun a c => ¬(a = ' ' ∧ c = ' ')) (sanTrunc translit base) := by
  unfold sanTrunc
  by_cases htr : 200 < (sanCore translit base).length
  · rw [if_pos htr]
    exact List.Chain'.prefix (sanCore_chain translit base)
      ((pyRstrip_isPref _).trans ( List.take_prefix _ _))
  · rw [if_neg htr]
    exact sanCore_chain translit base

theorem sanTrunc_head (translit : List Char → List Char) (base : List Char) :
    ∀ x ∈ (sanTrunc translit base).head?, isSpaceDot x = false := by
  intro x hx
  unfold sanTrunc at hx
  by_cases htr : 200 < (sanCore translit base).length
  · rw [if_pos htr] at hx
    have hx2 := head_of_pref
      ((pyRstrip_isPref _).trans ( List.take_prefix _ _)) x hx
    unfold sanCore at hx2
    exact stripDots_head _ x hx2
  · rw [if_neg htr] at hx
    unfold sanCore at hx
    exact stripDots_head _ x hx

theorem sanTrunc_last (translit : List Char → List Char) (base : List Char) :
    ∀ x ∈ (sanTrunc translit base).getLast?, pyIsSpace x = false := by
  intro x hx
  unfold sanTrunc at hx
  by_cases htr : 200 < (sanCore translit base).length
  · rw [if_pos htr] at hx
    exact pyRstrip_last _ x hx
  · rw [if_neg htr] at hx
    have hmem : x ∈ sanCore translit base := List.mem_of_getLast?_eq_some hx
    have hsd : isSpaceDot x = false := by
      have hx2 := hx
      unfold sanCore at hx2
      exact stripDots_last _ x hx2
    cases hws : pyIsSpace x with
    | false => rfl
    | true =>
      have hsp := sanCore_ws_space translit base x hmem hws
      subst hsp
      simp [isSpaceDot] at hsd

/-- Whatever the transliteration emits, the sanitizer's output is
ASCII-only. -/
theorem sanitize_ascii (translit : List Char → List Char) (base : List Char) :
    ∀ c ∈ sanitize_filename_with translit base, c.toNat < 128 := by
  intro c hc
  by_cases hb : base = []
  · subst hb
    rw [show sanitize_filename_with translit ([] : List Char) = [] from rfl] at hc
    simp at hc
  · rw [sanitize_filename_eq translit base hb] at hc
    by_cases hres : upperL (sanTrunc translit base) ∈ windowsReserved
    · rw [if_pos hres] at hc
      rcases List.mem_append.mp hc with h | h
      · exact sanTrunc_ascii translit base c h
      · have : c = '_' := by simpa using h
        subst this
        decide
    · rw [if_neg hres] at hc
      exact sanTrunc_ascii translit base c hc

/-- Whatever the transliteration emits, the only whitespace in the
sanitizer's output is the single space. -/
theorem sanitize_ws_space (translit : List Char → List Char) (base : List Char) :
    ∀ c ∈ sanitize_filename_with translit base, pyIsSpace c = true → c = ' ' := by
  intro c hc
  by_cases hb : base = []
  · subst hb
    rw [show sanitize_filename_with translit ([] : List Char) = [] from rfl] at hc
    simp at hc
  · rw [sanitize_filename_eq translit base hb] at hc
    by_cases hres : upperL (sanTrunc translit base) ∈ windowsReserved
    · rw [if_pos hres] at hc
      rcases List.mem_append.mp hc with h | h
      · exact sanTrunc_ws_space translit base c h
      · have hcu : c = '_' := by simpa using h
        subst hcu
        intro hws
        exact absurd hws (by decide)
    · rw [if_neg hres] at hc
      exact sanTrunc_ws_space translit base c hc

/-- The sanitizer's output has no two adjacent spaces. -/
theorem sanitize_chain (translit : List Char → List Char) (base : List Char) :
    List.Chain' (fun a c => ¬(a = ' ' ∧ c = ' '))
      (sanitize_filename_with translit base) := by
  by_cases hb : base = []
  · subst hb
    rw [show sanitize_filename_with translit ([] : List Char) = [] from rfl]
    exact List.chain'_nil
  · rw [sanitize_filename_eq translit base hb]
    by_cases hres : upperL (sanTrunc translit base) ∈ windowsReserved
    · rw [if_pos hres]
      apply List.Chain'.append (sanTrunc_chain translit base)
        (List.chain'_singleton '_')
      intro x _ y hy
      have hy' : '_' = y := by simpa using hy
      subst hy'
      exact fun hcontr => absurd hcontr.2 (by decide)
    · rw [if_neg hres]
      exact sanTrunc_chain translit base

/-- The sanitizer's output never starts with a space or a period. -/
theorem sanitize_head (translit : List Char → List Char) (base : List Char) :
    ∀ x ∈ (sanitize_filename_with translit base).head?, isSpaceDot x = false := by
  intro x hx
  by_cases hb : base = []
  · subst hb
    rw [show sanitize_filename_with translit ([] : List Char) = [] from rfl] at hx
    simp at hx
  · rw [sanitize_filename_eq translit base hb] at hx
    by_cases hres : upperL (sanTrunc translit base) ∈ windowsReserved
    · rw [if_pos hres] at hx
      cases hst : sanTrunc translit base with
      | nil =>
        rw [hst] at hres
        exact absurd hres (by decide)
      | cons a t =>
        rw [hst] at hx
        have hxa : a = x := by simpa using hx
        subst hxa
        exact sanTrunc_head translit base a (by rw [hst]; rfl)
    · rw [if_neg hres] at hx
      exact sanTrunc_head translit base x hx

/-- The sanitizer's output never ends with whitespace. -/
theorem sanitize_last_ne_ws (translit : List Char → List Char) (base : List Char) :
    ∀ x ∈ (sanitize_filename_with translit base).getLast?, pyIsSpace x = false := by
  intro x hx
  by_cases hb : base = []
  · subst hb
    rw [show sanitize_filename_with translit ([] : List Char) = [] from rfl] at hx
    simp at hx
  · rw [sanitize_filename_eq translit base hb] at hx
    by_cases hres : upperL (sanTrunc translit base) ∈ windowsReserved
    · rw [if_pos hres] at hx
      rw [List.getLast?_concat] at hx
      have hxu : '_' = x := by simpa using hx
      subst hxu
      decide
    · rw [if_neg hres] at hx
      exact sanTrunc_last translit base x hx

/-- The sanitizer's output length never exceeds 200. -/
theorem sanitize_len (translit : List Char → List Char) (base : List Char) :
    (sanitize_filename_with translit base).length ≤ 200 := by
  by_cases hb : base = []
  · subst hb
    rw [show sanitize_filename_with translit ([] : List Char) = [] from rfl]
    decide
  · rw [sanitize_filename_eq translit base hb]
    by_cases hres : upperL (sanTrunc translit base) ∈ windowsReserved
    · rw [if_pos hres]
      have h4 := reserved_len hres
      simp only [List.length_append, List.length_cons, List.length_nil]
      omega
    · rw [if_neg hres]
      exact sanTrunc_len translit base

/-- The sanitizer's output never case-insensitively equals a reserved
device name. -/
theorem sanitize_not_reserved (translit : List Char → List Char)
    (base : List Char) :
    upperL (sanitize_filename_with translit base) ∉ windowsReserved := by
  by_cases hb : base = []
  · subst hb
    rw [show sanitize_filename_with translit ([] : List Char) = [] from rfl]
    decide
  · rw [sanitize_filename_eq translit base hb]
    by_cases hres : upperL (sanTrunc translit base) ∈ windowsReserved
    · rw [if_pos hres]
      have hup : upperL (sanTrunc translit base ++ ['_']) =
          upperL (sanTrunc translit base) ++ ['_'] := by
        have h1 : Char.toUpper '_' = '_' := by rfl
        simp [upperL, h1]
      rw [hup]
      exact append_underscore_not_reserved _
    · rw [if_neg hres]
      exact hres

/-- C5 counterexample: with the transliteration library present, a kept
fullwidth character transliterates to a filesystem-illegal ASCII character
that no later stage removes: sanitizing `？` yields `?`. -/
theorem c5_counterexample :
    sanitize_filename_uni "？".data = "?".data ∧
    '?' ∈ sanitize_filename_uni "？".data ∧
    illegalFsChars.contains '?' = true := by
  exact ⟨by decide, by decide, by decide⟩

/-- C5 (amended): for either outcome of the optional-library import the
sanitizer is total (a plain function here), its output never exceeds 200
characters and never case-insensitively equals a reserved device name
without the appended disambiguating suffix; in the library-absent branch
the output moreover contains none of `\ / : * ? " < > |`. -/
theorem c5_amended (translit : List Char → List Char) (base : List Char) :
    (sanitize_filename_with translit base).length ≤ 200 ∧
    upperL (sanitize_filename_with translit base) ∉ windowsReserved ∧
    (∀ c ∈ sanitize_filename base, illegalFsChars.contains c = false) :=
  ⟨sanitize_len translit base, sanitize_not_reserved translit base,
    fun c hc => (sanitize_chars base c hc).2.2.2⟩

/-- C4 counterexample: the claim fails as stated, in both import branches.
Truncation exposes a trailing period that a second application strips: on
199 `a`s followed by `.bb`, one application yields 200 characters ending
in `.` and a second application yields 199. -/
theorem c4_counterexample :
    sanitize_filename (sanitize_filename
        (List.replicate 199 'a' ++ ".bb".data)) ≠
      sanitize_filename (List.replicate 199 'a' ++ ".bb".data) ∧
    sanitize_filename_uni (sanitize_filename_uni
        (List.replicate 199 'a' ++ ".bb".data)) ≠
      sanitize_filename_uni (List.replicate 199 'a' ++ ".bb".data) := by
  constructor <;> decide

/-- C4 (amended): for either transliteration that fixes ASCII strings
(both import branches qualify), the sanitizer is idempotent on every input
whose once-sanitized result consists only of characters the first-pass
filter keeps, has no whitespace immediately preceding one of `, . ! ? ; :`,
and does not end with a period; truncation and transliteration can produce
results outside these shapes, on which a second application strips
further. -/
theorem c4_amended (translit : List Char → List Char)
    (htr : ∀ l, (∀ c ∈ l, c.toNat < 128) → translit l = l)
    (s : List Char)
    (hk : ∀ c ∈ sanitize_filename_with translit s, keepChar c = true)
    (hp : punctFix (sanitize_filename_with translit s) =
      sanitize_filename_with translit s)
    (hd : (sanitize_filename_with translit s).getLast? ≠ some '.') :
    sanitize_filename_with translit (sanitize_filename_with translit s) =
      sanitize_filename_with translit s := by
  by_cases hrnil : sanitize_filename_with translit s = []
  · rw [hrnil]
    rfl
  · have hfilter : (pyNFC (sanitize_filename_with translit s)).filter keepChar =
        sanitize_filename_with translit s := by
      unfold pyNFC
      exact List.filter_eq_self.mpr hk
    have hcol : collapseWs (sanitize_filename_with translit s) =
        sanitize_filename_with translit s :=
      collapseWsGo_fix _ false (sanitize_ws_space translit s)
        (sanitize_chain translit s) (fun h => nomatch h)
    have hlast : ∀ x ∈ (sanitize_filename_with translit s).getLast?,
        isSpaceDot x = false := by
      intro x hx
      have hne1 : x ≠ ' ' := by
        intro hcontr
        subst hcontr
        exact absurd (sanitize_last_ne_ws translit s ' ' hx) (by decide)
      have hne2 : x ≠ '.' := by
        intro hcontr
        subst hcontr
        exact hd hx
      simp [isSpaceDot, hne1, hne2]
    have hstrip : stripDots (sanitize_filename_with translit s) =
        sanitize_filename_with translit s :=
      stripDots_fix (sanitize_head translit s) hlast
    have hascii : asciiOnly (sanitize_filename_with translit s) =
        sanitize_filename_with translit s := by
      apply List.filter_eq_self.mpr
      intro a ha
      simpa using sanitize_ascii translit s a ha
    have htrans : translit (sanitize_filename_with translit s) =
        sanitize_filename_with translit s :=
      htr _ (sanitize_ascii translit s)
    have hcore : sanCore translit (sanitize_filename_with translit s) =
        sanitize_filename_with translit s := by
      unfold sanCore
      rw [hfilter, hcol, hp, hstrip, htrans, hascii, hcol, hstrip]
    have htrunc : sanTrunc translit (sanitize_filename_with translit s) =
        sanitize_filename_with translit s := by
      unfold sanTrunc
      rw [hcore, if_neg (by have := sanitize_len translit s; omega)]
    rw [sanitize_filename_eq translit _ hrnil, htrunc,
      if_neg (sanitize_not_reserved translit s)]

/-- Witness for the amended C4 at a concrete title, in the
library-present branch. -/
theorem c4_witness :
    sanitize_filename_with pyUnidecode
        (sanitize_filename_with pyUnidecode "My Title.".data) =
      sanitize_filename_with pyUnidecode "My Title.".data :=
  c4_amended pyUnidecode pyUnidecode_ascii_id "My Title.".data
    (by decide) (by decide) (by decide)

end YtTranscribe
